import Mathlib

/-!
Verification of the s3fs stat-cache / symlink-cache / object-list core.

The definitions below are a shallow embedding of the C++ sources:
the StatCache implementation found in src/src/metaheader.h (the class
methods GetStat, IsNoObjectCache, AddStat, UpdateMetaStats,
AddNoObjectCache, TruncateCache, DelStatHasLock, TruncateSymlink,
DelSymlinkHasLock, AddNotruncateCache, DelNotruncateCache) and
S3ObjList from src/src/s3objlist.cpp.

Modelling conventions:
- std::map is modelled as an association list with unique keys; the
  iteration order of the C++ map (sorted by key) is abstracted: no claim
  here depends on it beyond tie-breaking inside the eviction comparator,
  which is itself unspecified for ties (std::sort is unstable).
- The monotonic clock is modelled by an explicit integer argument "now"
  passed to each operation; a timespec is modelled as one integer
  timestamp (the (tv_sec, tv_nsec) lexicographic comparison equals the
  order of sec*10^9+nsec, and IsExpireStatCacheTime subtracts whole
  seconds, so one integer time with a scaled expiry is faithful).
- Methods that return bool but always return true are modelled as pure
  state transformers.
-/

namespace S3fs

/-- Last character of a string, if any. Total model of dereferencing
std::string rbegin (the C++ leaves the empty-string case undefined;
here it simply yields none, which compares unequal to any character). -/
def lastChar (s : String) : Option Char :=
  s.toList.getLast?

/-- Remove the last character of a string. -/
def dropLastChar (s : String) : String :=
  ⟨s.toList.dropLast⟩

/-- The slash counterpart of a key as computed in StatCache::DelStatHasLock:
the trailing slash is removed when present, appended otherwise. -/
def counterpart (key : String) : String :=
  if lastChar key = some '/' then dropLastChar key else key ++ "/"

/-- Modelled from the spec: mybasename is defined in s3fs_util.cpp, which is
not among the sources. Per spec section 3, the NotruncatePinMap maps a parent
directory to its child file names, so this returns the component after the
last slash (POSIX basename for slash-free tails). -/
def mybasename (path : String) : String :=
  ⟨(path.toList.reverse.takeWhile (fun c => c ≠ '/')).reverse⟩

/-- Modelled from the spec: mydirname is defined in s3fs_util.cpp, which is
not among the sources. POSIX-style dirname: the text before the last slash,
"." when the path has no slash, "/" for entries of the root directory. -/
def mydirname (path : String) : String :=
  let d := (path.toList.reverse.dropWhile (fun c => c ≠ '/')).reverse
  if d = [] then "."
  else if d = ['/'] then "/"
  else ⟨d.dropLast⟩

/-- Object metadata: a list of (header name, value) pairs. headers_t in the
source is a std::map with a case-insensitive comparator, so well-formed
values have names pairwise distinct up to case. -/
abbrev headers_t := List (String × String)

/-- Lower-casing of a header name, written over the character list so that
it evaluates by kernel reduction. -/
def lcase (s : String) : String :=
  ⟨s.toList.map Char.toLower⟩

/-- Case-insensitive header-name equality (the comparator of headers_t). -/
def hdrEq (a b : String) : Bool :=
  lcase a == lcase b

/-- Case-insensitive lookup in a header map. -/
def hfind (meta : headers_t) (k : String) : Option String :=
  (meta.find? (fun p => hdrEq p.1 k)).map (fun p => p.2)

/-- The curated header subset that StatCache::AddStat and UpdateMetaStats
keep: content-type, content-length, etag, last-modified, and any name with
the x-amz prefix, all matched case-insensitively. -/
def curatedKey (k : String) : Bool :=
  hdrEq k "content-type" || hdrEq k "content-length" || hdrEq k "etag" ||
  hdrEq k "last-modified" || ("x-amz".toList.isPrefixOf (lcase k).toList)

/-- Lookup in an association-list map (std::map::find). -/
def mfind {α : Type} (m : List (String × α)) (k : String) : Option α :=
  (m.find? (fun p => p.1 == k)).map (fun p => p.2)

/-- Erase a key from an association-list map (std::map::erase). -/
def merase {α : Type} (m : List (String × α)) (k : String) : List (String × α) :=
  m.filter (fun p => p.1 != k)

/-- Replace the value stored under an existing key, in place. -/
def mupdate {α : Type} (m : List (String × α)) (k : String) (v : α) : List (String × α) :=
  m.map (fun p => if p.1 == k then (k, v) else p)

/-- std::map operator[] followed by assignment: overwrite when the key is
present, append a new binding otherwise. -/
def massign {α : Type} (m : List (String × α)) (k : String) (v : α) : List (String × α) :=
  if (mfind m k).isSome then mupdate m k v else m ++ [(k, v)]

/-- stat_cache_entry (declared in cache.h): only the st_mode field of the
struct stat is carried, which is all the cache logic in the sources reads. -/
structure stat_cache_entry where
  st_mode    : Nat
  hit_count  : Nat
  cache_date : Int
  isforce    : Bool
  noobjcache : Bool
  notruncate : Nat
  meta       : headers_t
deriving Repr, DecidableEq

/-- symlink_cache_entry (declared in cache.h). -/
structure symlink_cache_entry where
  link       : String
  hit_count  : Nat
  cache_date : Int
deriving Repr, DecidableEq

abbrev stat_cache_t := List (String × stat_cache_entry)

abbrev symlink_cache_t := List (String × symlink_cache_entry)

abbrev notruncate_filelist_t := List String

/-- The StatCache singleton: configuration fields plus the three maps. -/
structure StatCache where
  IsExpireTime          : Bool
  IsExpireIntervalType  : Bool
  ExpireTime            : Int
  CacheSize             : Nat
  UseNegativeCache      : Bool
  stat_cache            : stat_cache_t
  symlink_cache         : symlink_cache_t
  notruncate_file_cache : List (String × notruncate_filelist_t)
deriving Repr, DecidableEq

/-- IsExpireStatCacheTime: the entry dated date is expired at time now when
now minus the expiry interval is strictly later than date. -/
def isExpired (now expire date : Int) : Bool :=
  decide (date < now - expire)

/-- The sort_statiterlist comparator: strictly ascending by cache_date, with
hit_count breaking date ties. -/
def cmpEnt (a b : String × stat_cache_entry) : Bool :=
  decide (a.2.cache_date < b.2.cache_date) ||
    (a.2.cache_date == b.2.cache_date && decide (a.2.hit_count < b.2.hit_count))

/-- The total preorder induced by cmpEnt, used for sorting candidates. -/
def entLE (a b : String × stat_cache_entry) : Prop :=
  cmpEnt b a = false

instance : DecidableRel entLE := fun a b => by
  unfold entLE
  infer_instance

instance : IsTotal (String × stat_cache_entry) entLE := by
  constructor
  intro a b
  simp only [entLE, cmpEnt, Bool.or_eq_false_iff, Bool.and_eq_false_iff,
    decide_eq_false_iff_not, beq_eq_false_iff_ne, ne_eq, beq_iff_eq]
  omega

instance : IsTrans (String × stat_cache_entry) entLE := by
  constructor
  intro a b c hab hbc
  simp only [entLE, cmpEnt, Bool.or_eq_false_iff, Bool.and_eq_false_iff,
    decide_eq_false_iff_not, beq_eq_false_iff_ne, ne_eq, beq_iff_eq] at hab hbc ⊢
  omega

/-- One round of candidate trimming inside TruncateCache step 3: when the
candidate list exceeds the remaining erase budget, sort it ascending and keep
only the budget-many smallest. -/
def trimCandidates (c : Nat) (L : List (String × stat_cache_entry)) :
    List (String × stat_cache_entry) :=
  if c < L.length then (List.insertionSort entLE L).take c else L

/-- The candidate-selection loop of TruncateCache step 3: walk the entries,
skip pinned ones while decrementing the erase budget for each, collect
non-pinned ones, trimming after every step; stop when the budget is gone. -/
def truncLoop : List (String × stat_cache_entry) → Nat →
    List (String × stat_cache_entry) → List (String × stat_cache_entry)
  | [], _, L => L
  | p :: rest, c, L =>
    if c = 0 then L
    else if 0 < p.2.notruncate then
      truncLoop rest (c - 1) (trimCandidates (c - 1) L)
    else
      truncLoop rest c (trimCandidates c (L ++ [p]))

/-- TruncateCache step 1: drop every non-pinned expired entry (only when
expiry is enabled). -/
def sweepExpired (S : StatCache) (now : Int) : stat_cache_t :=
  if S.IsExpireTime then
    S.stat_cache.filter
      (fun p => !(decide (p.2.notruncate = 0) && isExpired now S.ExpireTime p.2.cache_date))
  else S.stat_cache

/-- StatCache::TruncateCache. -/
def TruncateCache (S : StatCache) (check_only_oversize_case : Bool) (now : Int) : StatCache :=
  if S.stat_cache.isEmpty || (check_only_oversize_case && decide (S.stat_cache.length < S.CacheSize)) then S
  else
    let sc1 := sweepExpired S now
    if sc1.length < S.CacheSize then { S with stat_cache := sc1 }
    else
      let erase_count := sc1.length - S.CacheSize + 1
      let evict := truncLoop sc1 erase_count []
      { S with stat_cache := sc1.filter (fun p => !(evict.any (fun q => q.1 == p.1))) }

/-- StatCache::AddNotruncateCache, acting on the notruncate_file_cache map. -/
def AddNotruncateCache (nt : List (String × notruncate_filelist_t)) (key : String) :
    List (String × notruncate_filelist_t) :=
  if key = "" ∨ lastChar key = some '/' then nt
  else
    let parentdir := mydirname key
    let filename := mybasename key
    if parentdir = "" ∨ filename = "" then nt
    else
      let pd := parentdir ++ "/"
      match mfind nt pd with
      | none => nt ++ [(pd, [filename])]
      | some filelist =>
        if filelist.contains filename then nt
        else mupdate nt pd (filelist ++ [filename])

/-- StatCache::DelNotruncateCache, acting on the notruncate_file_cache map. -/
def DelNotruncateCache (nt : List (String × notruncate_filelist_t)) (key : String) :
    List (String × notruncate_filelist_t) :=
  if key = "" ∨ lastChar key = some '/' then nt
  else
    let parentdir := mydirname key
    let filename := mybasename key
    if parentdir = "" ∨ filename = "" then nt
    else
      let pd := parentdir ++ "/"
      match mfind nt pd with
      | none => nt
      | some filelist =>
        if filelist.contains filename then
          let fl2 := filelist.erase filename
          if fl2.isEmpty then merase nt pd else mupdate nt pd fl2
        else nt

/-- StatCache::DelStatHasLock: erase the key when present (with its
notruncate registration), then do the same for its slash counterpart. -/
def DelStatHasLock (S : StatCache) (key : String) : StatCache :=
  let S1 :=
    if (mfind S.stat_cache key).isSome then
      { S with stat_cache := merase S.stat_cache key,
               notruncate_file_cache := DelNotruncateCache S.notruncate_file_cache key }
    else S
  if key = "" ∨ key = "/" then S1
  else
    let strpath := counterpart key
    if (mfind S1.stat_cache strpath).isSome then
      { S1 with stat_cache := merase S1.stat_cache strpath,
                notruncate_file_cache := DelNotruncateCache S1.notruncate_file_cache strpath }
    else S1

/-- Modelled from the spec: convert_header_to_stat and get_mode are defined
in metaheader.cpp and s3fs_util.cpp, which are not among the sources. Only
the resulting st_mode is modelled: per spec section 4.B the file mode is
carried in the x-amz-meta-mode header, and forcedir forces a directory. -/
def computedMode (meta : headers_t) (forcedir : Bool) : Nat :=
  if forcedir then 16877
  else
    match hfind meta "x-amz-meta-mode" with
    | some v => v.toList.foldl (fun a c => if c.isDigit then a * 10 + (c.toNat - 48) else a) 0
    | none => 0

/-- POSIX S_ISLNK on the modelled mode bits: the S_IFMT nibble (bits 12-15)
equals S_IFLNK (octal 12). -/
def S_ISLNK (m : Nat) : Bool :=
  m / 4096 % 16 == 10

/-- StatCache::AddStat. -/
def AddStat (S : StatCache) (key : String) (meta : headers_t)
    (forcedir no_truncate : Bool) (now : Int) : StatCache :=
  if no_truncate = false ∧ S.CacheSize < 1 then S
  else
    let S1 := if (mfind S.stat_cache key).isSome then DelStatHasLock S key
              else TruncateCache S true now
    let ent : stat_cache_entry :=
      { st_mode := computedMode meta forcedir
        hit_count := 0
        cache_date := now
        isforce := forcedir
        noobjcache := false
        notruncate := if no_truncate then 1 else 0
        meta := meta.filter (fun p => curatedKey p.1) }
    let S2 := { S1 with stat_cache := massign S1.stat_cache key ent }
    let S3 :=
      if !(S_ISLNK ent.st_mode) && (mfind S2.symlink_cache key).isSome then
        { S2 with symlink_cache := merase S2.symlink_cache key }
      else S2
    if no_truncate then
      { S3 with notruncate_file_cache := AddNotruncateCache S3.notruncate_file_cache key }
    else S3

/-- Case-insensitive assignment into a header map (std::map operator[] with
the case-insensitive comparator: overwrite the value but keep the stored
spelling of the name when an equivalent key exists). -/
def hassign (m : headers_t) (k v : String) : headers_t :=
  if (m.find? (fun p => hdrEq p.1 k)).isSome then
    m.map (fun p => if hdrEq p.1 k then (p.1, v) else p)
  else m ++ [(k, v)]

/-- StatCache::UpdateMetaStats. -/
def UpdateMetaStats (S : StatCache) (key : String) (meta : headers_t) (now : Int) : StatCache :=
  if S.CacheSize < 1 then S
  else
    match mfind S.stat_cache key with
    | none => S
    | some ent =>
      let newmeta := meta.foldl
        (fun acc p =>
          if p.2 = "" then acc.eraseP (fun q => hdrEq q.1 p.1)
          else if curatedKey p.1 then hassign acc p.1 p.2
          else acc)
        ent.meta
      let ent2 := { ent with meta := newmeta, cache_date := now,
                             st_mode := computedMode meta false }
      { S with stat_cache := mupdate S.stat_cache key ent2 }

/-- The negative entry built by StatCache::AddNoObjectCache. -/
def noObjEntry (now : Int) : stat_cache_entry :=
  { st_mode := 0, hit_count := 0, cache_date := now, isforce := false,
    noobjcache := true, notruncate := 0, meta := [] }

/-- StatCache::AddNoObjectCache. -/
def AddNoObjectCache (S : StatCache) (key : String) (now : Int) : StatCache :=
  if S.UseNegativeCache = false then S
  else if S.CacheSize < 1 then S
  else
    let S1 := if (mfind S.stat_cache key).isSome then DelStatHasLock S key
              else TruncateCache S true now
    let S2 := { S1 with stat_cache := massign S1.stat_cache key (noObjEntry now) }
    if (mfind S2.symlink_cache key).isSome then
      { S2 with symlink_cache := merase S2.symlink_cache key }
    else S2

/-- Path resolution shared by GetStat and IsNoObjectCache: with overcheck and
no trailing slash, try key plus slash first, then the key itself. -/
def findPath (S : StatCache) (key : String) (overcheck : Bool) :
    Option (String × stat_cache_entry) :=
  if overcheck && !(lastChar key == some '/') then
    match mfind S.stat_cache (key ++ "/") with
    | some e => some (key ++ "/", e)
    | none =>
      match mfind S.stat_cache key with
      | some e => some (key, e)
      | none => none
  else
    match mfind S.stat_cache key with
    | some e => some (key, e)
    | none => none

/-- The cache-hit bookkeeping at the end of GetStat: bump hit_count, and
refresh cache_date when the sliding-expiry mode is on. -/
def touchHit (S : StatCache) (strpath : String) (ent : stat_cache_entry) (now : Int) : StatCache :=
  let ent2 := { ent with hit_count := ent.hit_count + 1,
                         cache_date := if S.IsExpireIntervalType then now else ent.cache_date }
  { S with stat_cache := mupdate S.stat_cache strpath ent2 }

/-- StatCache::GetStat. The first component is the returned bool (true on a
positive hit), the second the cache state afterwards. -/
def GetStat (S : StatCache) (key : String) (overcheck : Bool)
    (petag : Option String) (now : Int) : Bool × StatCache :=
  match findPath S key overcheck with
  | none => (false, S)
  | some (strpath, ent) =>
    if ent.notruncate = 0 ∧ S.IsExpireTime = true ∧
        isExpired now S.ExpireTime ent.cache_date = true then
      (false, DelStatHasLock S strpath)
    else if ent.noobjcache then
      if S.UseNegativeCache = false then (false, DelStatHasLock S strpath)
      else (false, S)
    else
      match petag with
      | some e =>
        (match hfind ent.meta "etag" with
         | some stretag =>
           if e ≠ stretag then (false, DelStatHasLock S strpath)
           else (true, touchHit S strpath ent now)
         | none => (true, touchHit S strpath ent now))
      | none => (true, touchHit S strpath ent now)

/-- StatCache::IsNoObjectCache. The first component is the returned bool
(true when a fresh negative entry is found). -/
def IsNoObjectCache (S : StatCache) (key : String) (overcheck : Bool) (now : Int) :
    Bool × StatCache :=
  if S.UseNegativeCache = false then (false, S)
  else
    match findPath S key overcheck with
    | none => (false, S)
    | some (strpath, ent) =>
      if ent.noobjcache = false then (false, S)
      else if ent.notruncate = 0 ∧ S.IsExpireTime = true ∧
          isExpired now S.ExpireTime ent.cache_date = true then
        (false, DelStatHasLock S strpath)
      else
        (true,
          if S.IsExpireIntervalType then
            { S with stat_cache := mupdate S.stat_cache strpath { ent with cache_date := now } }
          else S)

/-- StatCache::DelSymlinkHasLock. -/
def DelSymlinkHasLock (S : StatCache) (key : String) : StatCache :=
  { S with symlink_cache := merase S.symlink_cache key }

/-- The sort_symlinkiterlist comparator (same shape as the stat one). -/
def cmpSym (a b : String × symlink_cache_entry) : Bool :=
  decide (a.2.cache_date < b.2.cache_date) ||
    (a.2.cache_date == b.2.cache_date && decide (a.2.hit_count < b.2.hit_count))

/-- The total preorder induced by cmpSym. -/
def symLE (a b : String × symlink_cache_entry) : Prop :=
  cmpSym b a = false

instance : DecidableRel symLE := fun a b => by
  unfold symLE
  infer_instance

/-- The candidate-selection loop of TruncateSymlink step 3: push each entry,
sort, and pop the largest whenever the budget is exceeded. -/
def symTruncLoop : List (String × symlink_cache_entry) → Nat →
    List (String × symlink_cache_entry) → List (String × symlink_cache_entry)
  | [], _, L => L
  | p :: rest, ec, L =>
    let L1 := List.insertionSort symLE (L ++ [p])
    let L2 := if ec < L1.length then L1.dropLast else L1
    symTruncLoop rest ec L2

/-- StatCache::TruncateSymlink, exactly as written in the source, including
the guard that consults stat_cache.empty() rather than the symlink map. -/
def TruncateSymlink (S : StatCache) (check_only_oversize_case : Bool) (now : Int) : StatCache :=
  if S.stat_cache.isEmpty || (check_only_oversize_case && decide (S.symlink_cache.length < S.CacheSize)) then S
  else
    let sl1 :=
      if S.IsExpireTime then
        S.symlink_cache.filter (fun p => !(isExpired now S.ExpireTime p.2.cache_date))
      else S.symlink_cache
    if sl1.length < S.CacheSize then { S with symlink_cache := sl1 }
    else
      let erase_count := sl1.length - S.CacheSize + 1
      let evict := symTruncLoop sl1 erase_count []
      { S with symlink_cache := sl1.filter (fun p => !(evict.any (fun q => q.1 == p.1))) }

/-- objtype_t is declared in s3objlist.h, which is not among the sources;
the constructors are the ones s3objlist.cpp names. -/
inductive objtype_t where
  | UNKNOWN
  | DIR_NORMAL
  | DIR_NOT_TERMINATE_SLASH
  | DIR_FOLDER_SUFFIX
deriving Repr, DecidableEq

/-- IS_DIR_OBJ: exactly the directory types. -/
def IS_DIR_OBJ : objtype_t → Bool
  | objtype_t.UNKNOWN => false
  | objtype_t.DIR_NORMAL => true
  | objtype_t.DIR_NOT_TERMINATE_SLASH => true
  | objtype_t.DIR_FOLDER_SUFFIX => true

/-- s3obj_entry from s3objlist.h (fields as used by s3objlist.cpp). -/
structure s3obj_entry where
  normalname : String
  orgname    : String
  etag       : String
  type       : objtype_t
deriving Repr, DecidableEq

/-- S3ObjList: the map from stored key to entry. -/
structure S3ObjList where
  objects : List (String × s3obj_entry)
deriving Repr, DecidableEq

/-- Index of the first occurrence of pat inside a character list
(std::string::find). -/
def findIdxSub (pat : List Char) : List Char → Option Nat
  | [] => if pat.isPrefixOf ([] : List Char) then some 0 else none
  | c :: t =>
    if pat.isPrefixOf (c :: t) then some 0
    else (findIdxSub pat t).map (fun n => n + 1)

/-- The prefix of a name before its first "_$folder$" occurrence (the whole
name when the marker is absent). -/
def stripFolder (orgname : String) : String :=
  match findIdxSub ("_$folder$".toList) orgname.toList with
  | some pos => ⟨orgname.toList.take pos⟩
  | none => orgname

/-- The name normalization at the head of S3ObjList::insert: cut at a
"_$folder$" occurrence (forcing a folder-suffix directory type), then give
directory-determined names a trailing slash. -/
def normalizeInsertName (orgname : String) (is_dir : Bool) : String × objtype_t :=
  let t0 : objtype_t :=
    if (findIdxSub ("_$folder$".toList) orgname.toList).isSome then objtype_t.DIR_FOLDER_SUFFIX
    else objtype_t.UNKNOWN
  let n0 := stripFolder orgname
  if lastChar n0 = some '/' then
    (n0, if IS_DIR_OBJ t0 then t0 else objtype_t.DIR_NORMAL)
  else if is_dir || IS_DIR_OBJ t0 then
    (n0 ++ "/", if IS_DIR_OBJ t0 then t0 else objtype_t.DIR_NOT_TERMINATE_SLASH)
  else (n0, t0)

/-- S3ObjList::insert_normalized. -/
def insert_normalized (l : S3ObjList) (name normalized : String) (t : objtype_t) :
    Bool × S3ObjList :=
  if name = "" ∨ normalized = "" then (false, l)
  else if name = normalized then (true, l)
  else
    match mfind l.objects name with
    | some e =>
      (true, ⟨mupdate l.objects name
        { e with orgname := "", etag := "", normalname := normalized, type := t }⟩)
    | none =>
      (true, ⟨l.objects ++
        [(name, { normalname := normalized, orgname := "", etag := "", type := t })]⟩)

/-- The "Add object" block of S3ObjList::insert: update the entry stored
under newname, or append a fresh one. -/
def addObject (objs : List (String × s3obj_entry)) (orgname newname : String)
    (etag : Option String) (t : objtype_t) : List (String × s3obj_entry) :=
  match mfind objs newname with
  | some e =>
    mupdate objs newname
      { e with normalname := "", orgname := orgname, type := t,
               etag := match etag with | some tg => tg | none => e.etag }
  | none =>
    objs ++ [(newname,
      { normalname := "", orgname := orgname,
        etag := (match etag with | some tg => tg | none => ""), type := t })]

/-- S3ObjList::insert. A none name models a null pointer argument. -/
def S3ObjList.insert (l : S3ObjList) (name : Option String) (etag : Option String)
    (is_dir : Bool) : Bool × S3ObjList :=
  match name with
  | none => (false, l)
  | some orgname =>
    if orgname = "" then (false, l)
    else
      let nt := normalizeInsertName orgname is_dir
      if is_dir || IS_DIR_OBJ nt.2 then
        let chkname := dropLastChar nt.1
        let objs :=
          if (mfind l.objects chkname).isSome then merase l.objects chkname else l.objects
        insert_normalized ⟨addObject objs orgname nt.1 etag nt.2⟩ orgname nt.1 nt.2
      else
        let chkname := nt.1 ++ "/"
        if (mfind l.objects chkname).isSome then
          insert_normalized l orgname chkname nt.2
        else
          insert_normalized ⟨addObject l.objects orgname nt.1 etag nt.2⟩ orgname nt.1 nt.2

/-- S3ObjList::GetS3Obj. -/
def S3ObjList.GetS3Obj (l : S3ObjList) (name : Option String) : Option s3obj_entry :=
  match name with
  | none => none
  | some n => if n = "" then none else mfind l.objects n

/-- S3ObjList::IsDir. -/
def S3ObjList.IsDir (l : S3ObjList) (name : Option String) : Bool :=
  match l.GetS3Obj name with
  | none => false
  | some e => IS_DIR_OBJ e.type

/-- A name is registered in the notruncate map when its base name occurs in
the file list stored under its parent directory. -/
def regIn (nt : List (String × notruncate_filelist_t)) (pd fn : String) : Bool :=
  decide (fn ∈ (mfind nt pd).getD [])

/-- Concrete base state for the symlink-truncation independence check: an
over-capacity symlink cache, expiry disabled, empty stat cache. -/
def c7Base : StatCache :=
  { IsExpireTime := false, IsExpireIntervalType := false, ExpireTime := 0,
    CacheSize := 1, UseNegativeCache := true, stat_cache := [],
    symlink_cache := [("/l1", { link := "t1", hit_count := 0, cache_date := 5 }),
                      ("/l2", { link := "t2", hit_count := 0, cache_date := 3 })],
    notruncate_file_cache := [] }

/-- Keys of an association-list map. -/
def keysOf {α : Type} (m : List (String × α)) : List String :=
  m.map Prod.fst

/-- Number of non-pinned entries of a stat cache. -/
def npCount (l : stat_cache_t) : Nat :=
  (l.filter (fun p => p.2.notruncate == 0)).length

/-- Number of pinned entries of a stat cache. -/
def pinCount (l : stat_cache_t) : Nat :=
  (l.filter (fun p => p.2.notruncate != 0)).length

/-- A sequence of unpinned AddStat calls: each element carries the key, the
metadata, the forcedir flag and the clock value of one insert. -/
def addStatSeq (S : StatCache) (ops : List (String × headers_t × Bool × Int)) : StatCache :=
  ops.foldl (fun s op => AddStat s op.1 op.2.1 op.2.2.1 false op.2.2.2) S

/-- Concrete over-capacity state with two pinned entries, for the
eviction-size counterexample. -/
def c4State : StatCache :=
  { IsExpireTime := false, IsExpireIntervalType := false, ExpireTime := 0,
    CacheSize := 1, UseNegativeCache := true,
    stat_cache := [("/p1", { st_mode := 0, hit_count := 0, cache_date := 1, isforce := false,
                             noobjcache := false, notruncate := 1, meta := [] }),
                   ("/p2", { st_mode := 0, hit_count := 0, cache_date := 2, isforce := false,
                             noobjcache := false, notruncate := 1, meta := [] }),
                   ("/q", { st_mode := 0, hit_count := 0, cache_date := 3, isforce := false,
                            noobjcache := false, notruncate := 0, meta := [] })],
    symlink_cache := [], notruncate_file_cache := [] }

/-- Sample header map for concrete witnesses. -/
def wMeta : headers_t :=
  [("Content-Type", "text/plain"), ("x-amz-meta-mode", "33188"),
   ("X-Custom", "junk"), ("ETag", "abc"), ("Content-Length", "4")]

/-- Sample cache configuration for concrete witnesses. -/
def wConf : StatCache :=
  { IsExpireTime := true, IsExpireIntervalType := false, ExpireTime := 900,
    CacheSize := 3, UseNegativeCache := true, stat_cache := [],
    symlink_cache := [], notruncate_file_cache := [] }

/-- Sample stat-cache entry builder for concrete witnesses. -/
def wEntry (d : Int) (hits pin : Nat) (neg : Bool) (meta : headers_t) : stat_cache_entry :=
  { st_mode := 0, hit_count := hits, cache_date := d, isforce := false,
    noobjcache := neg, notruncate := pin, meta := meta }

/-- Sample symlink-cache entry builder for concrete witnesses. -/
def wSym (d : Int) : symlink_cache_entry :=
  { link := "target", hit_count := 0, cache_date := d }

/-- Capacity-3 cache holding one pinned entry, for the LRU-fill witness. -/
def c1State : StatCache :=
  { wConf with stat_cache := [("/pin", wEntry 0 0 1 false [])] }

/-- Four unpinned inserts of distinct fresh keys, for the LRU-fill witness. -/
def c1Ops : List (String × headers_t × Bool × Int) :=
  [("/k1", [], false, 1), ("/k2", [], false, 2), ("/k3", [], false, 3), ("/k4", [], false, 4)]

theorem cmpEnt_iff {a b : String × stat_cache_entry} :
    cmpEnt a b = true ↔
      (a.2.cache_date < b.2.cache_date ∨
        (a.2.cache_date = b.2.cache_date ∧ a.2.hit_count < b.2.hit_count)) := by
  simp [cmpEnt, Bool.or_eq_true, Bool.and_eq_true, decide_eq_true_iff, beq_iff_eq]

theorem entLE_iff {a b : String × stat_cache_entry} :
    entLE a b ↔
      (a.2.cache_date < b.2.cache_date ∨
        (a.2.cache_date = b.2.cache_date ∧ a.2.hit_count ≤ b.2.hit_count)) := by
  unfold entLE
  rw [← Bool.not_eq_true, cmpEnt_iff]
  omega

theorem mfind_nil {α : Type} (k : String) : mfind ([] : List (String × α)) k = none := rfl

theorem mfind_cons {α : Type} (p : String × α) (t : List (String × α)) (k : String) :
    mfind (p :: t) k = if p.1 = k then some p.2 else mfind t k := by
  by_cases h : p.1 = k <;> simp [mfind, List.find?_cons, h]

theorem merase_cons {α : Type} (p : String × α) (t : List (String × α)) (k : String) :
    merase (p :: t) k = if p.1 = k then merase t k else p :: merase t k := by
  by_cases h : p.1 = k <;> simp [merase, List.filter_cons, h]

theorem mupdate_cons {α : Type} (p : String × α) (t : List (String × α)) (k : String) (v : α) :
    mupdate (p :: t) k v = (if p.1 = k then (k, v) else p) :: mupdate t k v := by
  by_cases h : p.1 = k <;> simp [mupdate, h]

theorem mfind_merase_self {α : Type} (m : List (String × α)) (k : String) :
    mfind (merase m k) k = none := by
  induction m with
  | nil => rfl
  | cons p t ih =>
    rw [merase_cons]
    by_cases h : p.1 = k
    · simpa [h] using ih
    · rw [if_neg h, mfind_cons, if_neg h]
      exact ih

theorem mfind_merase_ne {α : Type} (m : List (String × α)) (k k2 : String) (h : k2 ≠ k) :
    mfind (merase m k) k2 = mfind m k2 := by
  induction m with
  | nil => rfl
  | cons p t ih =>
    rw [merase_cons, mfind_cons]
    by_cases hp : p.1 = k
    · rw [if_pos hp, if_neg (by rw [hp]; exact fun he => h he.symm)]
      exact ih
    · rw [if_neg hp, mfind_cons]
      by_cases hp2 : p.1 = k2
      · simp [hp2]
      · rw [if_neg hp2, if_neg hp2]
        exact ih

theorem mfind_mupdate_self {α : Type} (m : List (String × α)) (k : String) (v : α)
    (h : (mfind m k).isSome = true) : mfind (mupdate m k v) k = some v := by
  induction m with
  | nil => simp [mfind] at h
  | cons p t ih =>
    rw [mupdate_cons]
    by_cases hp : p.1 = k
    · rw [if_pos hp, mfind_cons]
      simp
    · rw [if_neg hp, mfind_cons, if_neg hp]
      rw [mfind_cons, if_neg hp] at h
      exact ih h

theorem mfind_mupdate_ne {α : Type} (m : List (String × α)) (k k2 : String) (v : α)
    (h : k2 ≠ k) : mfind (mupdate m k v) k2 = mfind m k2 := by
  induction m with
  | nil => rfl
  | cons p t ih =>
    by_cases hp : p.1 = k <;> by_cases hp2 : p.1 = k2
    · exact absurd (hp2.symm.trans hp) h
    · simp [mupdate_cons, mfind_cons, hp, hp2, ih,
        show ¬(k = k2) from fun he => h he.symm]
    · simp [mupdate_cons, mfind_cons, hp, hp2, h]
    · simp [mupdate_cons, mfind_cons, hp, hp2, ih]

theorem mfind_append_right {α : Type} (m : List (String × α)) (k : String) (v : α)
    (h : mfind m k = none) : mfind (m ++ [(k, v)]) k = some v := by
  induction m with
  | nil => simp [mfind]
  | cons p t ih =>
    rw [mfind_cons] at h
    rw [List.cons_append, mfind_cons]
    by_cases hp : p.1 = k
    · rw [if_pos hp] at h
      exact absurd h (by simp)
    · rw [if_neg hp] at h
      rw [if_neg hp]
      exact ih h

theorem mfind_append_left {α : Type} (m : List (String × α)) (k k2 : String) (v : α)
    (h : k2 ≠ k) : mfind (m ++ [(k, v)]) k2 = mfind m k2 := by
  induction m with
  | nil =>
    rw [List.nil_append, mfind_cons, if_neg (fun he => h he.symm)]
  | cons p t ih =>
    rw [List.cons_append, mfind_cons, mfind_cons]
    by_cases hp : p.1 = k2
    · simp [hp]
    · rw [if_neg hp, if_neg hp]
      exact ih

theorem mfind_massign_self {α : Type} (m : List (String × α)) (k : String) (v : α) :
    mfind (massign m k v) k = some v := by
  unfold massign
  by_cases h : (mfind m k).isSome = true
  · rw [if_pos h]
    exact mfind_mupdate_self m k v h
  · rw [if_neg h]
    refine mfind_append_right m k v ?_
    cases hm : mfind m k with
    | none => rfl
    | some w => rw [hm] at h; simp at h

theorem mfind_massign_ne {α : Type} (m : List (String × α)) (k k2 : String) (v : α)
    (h : k2 ≠ k) : mfind (massign m k v) k2 = mfind m k2 := by
  unfold massign
  split
  · exact mfind_mupdate_ne m k k2 v h
  · exact mfind_append_left m k k2 v h

theorem lastChar_ne_empty {k : String} {c : Char} (h : lastChar k = some c) :
    k.toList ≠ [] := by
  intro h0
  unfold lastChar at h
  rw [h0] at h
  exact Option.noConfusion h

theorem counterpart_ne (k : String) : counterpart k ≠ k := by
  unfold counterpart
  split
  · intro he
    have hl : k.toList.dropLast = k.toList := congrArg String.toList he
    have hne : k.toList ≠ [] := lastChar_ne_empty (by assumption)
    have h1 := congrArg List.length hl
    rw [List.length_dropLast] at h1
    have h2 : 0 < k.toList.length := List.length_pos.mpr hne
    omega
  · intro he
    have h1 := congrArg String.length he
    rw [String.length_append] at h1
    have h2 : ("/" : String).length = 1 := rfl
    omega

theorem DelStatHasLock_frame (S : StatCache) (key : String) :
    (DelStatHasLock S key).symlink_cache = S.symlink_cache ∧
    (DelStatHasLock S key).IsExpireTime = S.IsExpireTime ∧
    (DelStatHasLock S key).IsExpireIntervalType = S.IsExpireIntervalType ∧
    (DelStatHasLock S key).ExpireTime = S.ExpireTime ∧
    (DelStatHasLock S key).CacheSize = S.CacheSize ∧
    (DelStatHasLock S key).UseNegativeCache = S.UseNegativeCache := by
  unfold DelStatHasLock
  dsimp only
  split <;> split <;> first
    | exact ⟨rfl, rfl, rfl, rfl, rfl, rfl⟩
    | (split <;> exact ⟨rfl, rfl, rfl, rfl, rfl, rfl⟩)

theorem mfind_DelStatHasLock_self (S : StatCache) (key : String) :
    mfind (DelStatHasLock S key).stat_cache key = none := by
  unfold DelStatHasLock
  dsimp only
  have hcp : key ≠ counterpart key := (counterpart_ne key).symm
  by_cases h1 : (mfind S.stat_cache key).isSome = true
  · rw [if_pos h1]
    by_cases h2 : key = "" ∨ key = "/"
    · rw [if_pos h2]
      exact mfind_merase_self S.stat_cache key
    · rw [if_neg h2]
      split
      · exact (mfind_merase_ne _ _ _ hcp).trans (mfind_merase_self S.stat_cache key)
      · exact mfind_merase_self S.stat_cache key
  · rw [if_neg h1]
    have h0 : mfind S.stat_cache key = none := by
      cases hm : mfind S.stat_cache key with
      | none => rfl
      | some w => rw [hm] at h1; simp at h1
    by_cases h2 : key = "" ∨ key = "/"
    · rw [if_pos h2]
      exact h0
    · rw [if_neg h2]
      split
      · exact (mfind_merase_ne _ _ _ hcp).trans h0
      · exact h0

theorem findPath_none (S : StatCache) (key : String)
    (h : mfind S.stat_cache key = none) : findPath S key false = none := by
  unfold findPath
  simp [h]

theorem findPath_some (S : StatCache) (key : String) (ent : stat_cache_entry)
    (h : mfind S.stat_cache key = some ent) : findPath S key false = some (key, ent) := by
  unfold findPath
  simp [h]

theorem TruncateCache_frame (S : StatCache) (c : Bool) (now : Int) :
    (TruncateCache S c now).symlink_cache = S.symlink_cache ∧
    (TruncateCache S c now).notruncate_file_cache = S.notruncate_file_cache ∧
    (TruncateCache S c now).IsExpireTime = S.IsExpireTime ∧
    (TruncateCache S c now).IsExpireIntervalType = S.IsExpireIntervalType ∧
    (TruncateCache S c now).ExpireTime = S.ExpireTime ∧
    (TruncateCache S c now).CacheSize = S.CacheSize ∧
    (TruncateCache S c now).UseNegativeCache = S.UseNegativeCache := by
  unfold TruncateCache
  split
  · exact ⟨rfl, rfl, rfl, rfl, rfl, rfl, rfl⟩
  · dsimp only
    split
    · exact ⟨rfl, rfl, rfl, rfl, rfl, rfl, rfl⟩
    · exact ⟨rfl, rfl, rfl, rfl, rfl, rfl, rfl⟩

/-- C2: for every metadata map passed to AddStat, the stored entry keeps
exactly the curated header subset: a header of the input survives in the
cached entry iff its name is content-type, content-length, etag or
last-modified (case-insensitively) or begins with the x-amz prefix; every
other input header is absent from the cached entry. -/
theorem c2_addstat_curated_headers (S : StatCache) (key : String) (meta : headers_t)
    (forcedir no_truncate : Bool) (now : Int)
    (h : no_truncate = true ∨ 1 ≤ S.CacheSize) :
    ∃ ent : stat_cache_entry,
      mfind (AddStat S key meta forcedir no_truncate now).stat_cache key = some ent ∧
      ∀ hdr : String × String, hdr ∈ ent.meta ↔ hdr ∈ meta ∧ curatedKey hdr.1 = true := by
  unfold AddStat
  rw [if_neg (by rcases h with h | h
                 · simp [h]
                 · intro hc
                   omega)]
  refine ⟨{ st_mode := computedMode meta forcedir, hit_count := 0, cache_date := now,
            isforce := forcedir, noobjcache := false,
            notruncate := if no_truncate then 1 else 0,
            meta := meta.filter (fun p => curatedKey p.1) }, ?_, ?_⟩
  · dsimp only
    split <;> split <;> split <;> exact mfind_massign_self _ key _
  · intro hdr
    simp [List.mem_filter]

/-- Witness for C2 at a concrete input. -/
theorem c2_addstat_curated_headers_witness :
    ∃ ent : stat_cache_entry,
      mfind (AddStat wConf "/f" wMeta false false 10).stat_cache "/f" = some ent ∧
      ∀ hdr : String × String, hdr ∈ ent.meta ↔ hdr ∈ wMeta ∧ curatedKey hdr.1 = true :=
  c2_addstat_curated_headers wConf "/f" wMeta false false 10 (Or.inr (by decide))

/-- C3: for a key cached as a fresh non-negative entry, GetStat with an
expected ETag misses iff the stored etag differs from the expectation, and
on such a miss the stored entry is evicted from the cache. -/
theorem c3_getstat_etag (S : StatCache) (key : String) (ent : stat_cache_entry)
    (e : String) (now : Int)
    (hfound : mfind S.stat_cache key = some ent)
    (hneg : ent.noobjcache = false)
    (hfresh : ¬(ent.notruncate = 0 ∧ S.IsExpireTime = true ∧
      isExpired now S.ExpireTime ent.cache_date = true)) :
    ((GetStat S key false (some e) now).1 = false ↔
      ∃ strtag, hfind ent.meta "etag" = some strtag ∧ strtag ≠ e) ∧
    ((GetStat S key false (some e) now).1 = false →
      mfind (GetStat S key false (some e) now).2.stat_cache key = none) := by
  have hfp : findPath S key false = some (key, ent) := findPath_some S key ent hfound
  unfold GetStat
  rw [hfp]
  dsimp only
  rw [if_neg hfresh]
  simp only [hneg, Bool.false_eq_true, if_false]
  cases hm : hfind ent.meta "etag" with
  | none =>
    constructor
    · simp
    · intro hcon
      simp at hcon
  | some strtag =>
    dsimp only
    by_cases he : e = strtag
    · rw [if_neg (by simpa using he)]
      constructor
      · constructor
        · intro hcon
          simp at hcon
        · rintro ⟨t, ht, hne⟩
          obtain rfl := Option.some.inj ht
          exact absurd he.symm hne
      · intro hcon
        simp at hcon
    · rw [if_pos (by simpa using he)]
      constructor
      · constructor
        · intro _
          exact ⟨strtag, rfl, fun hh => he hh.symm⟩
        · intro _
          rfl
      · intro _
        exact mfind_DelStatHasLock_self S key

/-- Witness for C3 at a concrete input: a cached ETag "abc" queried with
expected ETag "zzz". -/
theorem c3_getstat_etag_witness :
    ((GetStat { wConf with stat_cache := [("/f", wEntry 5 0 0 false [("ETag", "abc")])] }
        "/f" false (some "zzz") 6).1 = false ↔
      ∃ strtag, hfind (wEntry 5 0 0 false [("ETag", "abc")]).meta "etag" = some strtag ∧
        strtag ≠ "zzz") ∧
    ((GetStat { wConf with stat_cache := [("/f", wEntry 5 0 0 false [("ETag", "abc")])] }
        "/f" false (some "zzz") 6).1 = false →
      mfind (GetStat { wConf with stat_cache := [("/f", wEntry 5 0 0 false [("ETag", "abc")])] }
        "/f" false (some "zzz") 6).2.stat_cache "/f" = none) :=
  c3_getstat_etag _ "/f" (wEntry 5 0 0 false [("ETag", "abc")]) "zzz" 6
    (by decide) (by decide) (by decide)

theorem AddNoObjectCache_props (S : StatCache) (k : String) (now : Int)
    (hneg : S.UseNegativeCache = true) (hcs : 1 ≤ S.CacheSize) :
    mfind (AddNoObjectCache S k now).stat_cache k = some (noObjEntry now) ∧
    (AddNoObjectCache S k now).UseNegativeCache = S.UseNegativeCache ∧
    (AddNoObjectCache S k now).IsExpireTime = S.IsExpireTime ∧
    (AddNoObjectCache S k now).IsExpireIntervalType = S.IsExpireIntervalType ∧
    (AddNoObjectCache S k now).ExpireTime = S.ExpireTime := by
  unfold AddNoObjectCache
  rw [if_neg (by simp [hneg]), if_neg (by omega)]
  dsimp only
  split
  · obtain ⟨-, hET, hEI, hEx, -, hUN⟩ := DelStatHasLock_frame S k
    split
    · exact ⟨mfind_massign_self _ k _, hUN, hET, hEI, hEx⟩
    · exact ⟨mfind_massign_self _ k _, hUN, hET, hEI, hEx⟩
  · obtain ⟨-, -, hET, hEI, hEx, -, hUN⟩ := TruncateCache_frame S true now
    split
    · exact ⟨mfind_massign_self _ k _, hUN, hET, hEI, hEx⟩
    · exact ⟨mfind_massign_self _ k _, hUN, hET, hEI, hEx⟩

/-- C5: while negative caching is enabled and the entry fresh, put_negative
followed by get reports a negative entry and not a positive hit; after an
invalidate the same get is a plain miss; with negative caching disabled,
put_negative changes nothing. -/
theorem c5_negative_cache (S Sdis : StatCache) (k : String) (now now2 : Int)
    (hneg : S.UseNegativeCache = true) (hcs : 1 ≤ S.CacheSize)
    (hfresh : ¬(S.IsExpireTime = true ∧ isExpired now2 S.ExpireTime now = true))
    (hdis : Sdis.UseNegativeCache = false) :
    ((IsNoObjectCache (AddNoObjectCache S k now) k false now2).1 = true ∧
     (GetStat (AddNoObjectCache S k now) k false none now2).1 = false) ∧
    ((IsNoObjectCache (DelStatHasLock (AddNoObjectCache S k now) k) k false now2).1 = false ∧
     (GetStat (DelStatHasLock (AddNoObjectCache S k now) k) k false none now2).1 = false) ∧
    AddNoObjectCache Sdis k now = Sdis := by
  obtain ⟨hm, hUN, hET, hEI, hEx⟩ := AddNoObjectCache_props S k now hneg hcs
  have hfresh2 : ¬((noObjEntry now).notruncate = 0 ∧
      (AddNoObjectCache S k now).IsExpireTime = true ∧
      isExpired now2 (AddNoObjectCache S k now).ExpireTime (noObjEntry now).cache_date = true) := by
    intro hc
    rw [hET, hEx] at hc
    exact hfresh ⟨hc.2.1, hc.2.2⟩
  refine ⟨⟨?_, ?_⟩, ⟨?_, ?_⟩, ?_⟩
  · unfold IsNoObjectCache
    rw [if_neg (by rw [hUN, hneg]; simp), findPath_some _ k _ hm]
    dsimp only
    rw [if_neg (by simp [noObjEntry]), if_neg hfresh2]
  · unfold GetStat
    rw [findPath_some _ k _ hm]
    dsimp only
    rw [if_neg hfresh2]
    rw [if_pos (by simp [noObjEntry])]
    split <;> rfl
  · unfold IsNoObjectCache
    split
    · rfl
    · rw [findPath_none _ k (mfind_DelStatHasLock_self (AddNoObjectCache S k now) k)]
  · unfold GetStat
    rw [findPath_none _ k (mfind_DelStatHasLock_self (AddNoObjectCache S k now) k)]
  · unfold AddNoObjectCache
    rw [if_pos hdis]

/-- Witness for C5 at a concrete input. -/
theorem c5_negative_cache_witness :
    ((IsNoObjectCache (AddNoObjectCache wConf "/n" 1) "/n" false 2).1 = true ∧
     (GetStat (AddNoObjectCache wConf "/n" 1) "/n" false none 2).1 = false) ∧
    ((IsNoObjectCache (DelStatHasLock (AddNoObjectCache wConf "/n" 1) "/n") "/n" false 2).1 = false ∧
     (GetStat (DelStatHasLock (AddNoObjectCache wConf "/n" 1) "/n") "/n" false none 2).1 = false) ∧
    AddNoObjectCache { wConf with UseNegativeCache := false } "/n" 1 =
      { wConf with UseNegativeCache := false } :=
  c5_negative_cache wConf { wConf with UseNegativeCache := false } "/n" 1 2
    (by decide) (by decide) (by decide) (by decide)

theorem AddNotruncate_registers (nt : List (String × notruncate_filelist_t)) (key : String)
    (h1 : key ≠ "") (h2 : lastChar key ≠ some '/')
    (h3 : mydirname key ≠ "") (h4 : mybasename key ≠ "") :
    ((mfind (AddNotruncateCache nt key) (mydirname key ++ "/")).getD []).contains
      (mybasename key) = true := by
  unfold AddNotruncateCache
  rw [if_neg (by rintro (h | h); exact h1 h; exact h2 h)]
  rw [if_neg (by rintro (h | h); exact h3 h; exact h4 h)]
  dsimp only
  cases hpd : mfind nt (mydirname key ++ "/") with
  | none =>
    dsimp only
    rw [mfind_append_right nt _ _ hpd]
    simp
  | some fl =>
    dsimp only
    by_cases hin : fl.contains (mybasename key)
    · rw [if_pos hin, hpd]
      simpa using hin
    · rw [if_neg hin]
      rw [mfind_mupdate_self nt _ _ (by rw [hpd]; rfl)]
      simp

/-- C9: AddStat storing an entry whose computed mode is not a symbolic link
removes any symlink-cache entry under that key, and so does every completed
AddNoObjectCache insertion for its key. -/
theorem c9_symlink_exclusion (S : StatCache) (key : String) (meta : headers_t)
    (forcedir no_truncate : Bool) (now now2 : Int)
    (hmode : S_ISLNK (computedMode meta forcedir) = false)
    (hneg : S.UseNegativeCache = true) (hcs : 1 ≤ S.CacheSize) :
    mfind (AddStat S key meta forcedir no_truncate now).symlink_cache key = none ∧
    mfind (AddNoObjectCache S key now2).symlink_cache key = none := by
  constructor
  · unfold AddStat
    rw [if_neg (by intro hc; omega)]
    dsimp only
    split <;> split <;> split <;> first
      | exact mfind_merase_self _ _
      | (rename_i hc
         simp [hmode] at hc
         exact hc)
  · unfold AddNoObjectCache
    rw [if_neg (by simp [hneg]), if_neg (by omega)]
    dsimp only
    split <;> split <;> first
      | exact mfind_merase_self _ _
      | (rename_i hc
         simp at hc
         exact hc)

/-- Witness for C9 at a concrete input: a state whose symlink cache holds the
key being inserted. -/
theorem c9_symlink_exclusion_witness :
    mfind (AddStat { wConf with symlink_cache := [("/s", wSym 1)] }
      "/s" wMeta false false 3).symlink_cache "/s" = none ∧
    mfind (AddNoObjectCache { wConf with symlink_cache := [("/s", wSym 1)] }
      "/s" 4).symlink_cache "/s" = none :=
  c9_symlink_exclusion { wConf with symlink_cache := [("/s", wSym 1)] } "/s" wMeta
    false false 3 4 (by decide) (by decide) (by decide)

/-- C10: with CacheSize zero, a pinned AddStat still inserts its entry and
registers the file name under its parent directory in the notruncate map,
while an unpinned AddStat, UpdateMetaStats and AddNoObjectCache all leave the
cache untouched (returning success). -/
theorem c10_cachesize_zero (S : StatCache) (key : String) (meta : headers_t)
    (forcedir : Bool) (now : Int)
    (hcs : S.CacheSize = 0)
    (h1 : key ≠ "") (h2 : lastChar key ≠ some '/')
    (h3 : mydirname key ≠ "") (h4 : mybasename key ≠ "") :
    (∃ ent, mfind (AddStat S key meta forcedir true now).stat_cache key = some ent ∧
      ent.notruncate = 1) ∧
    ((mfind (AddStat S key meta forcedir true now).notruncate_file_cache
        (mydirname key ++ "/")).getD []).contains (mybasename key) = true ∧
    AddStat S key meta forcedir false now = S ∧
    UpdateMetaStats S key meta now = S ∧
    AddNoObjectCache S key now = S := by
  refine ⟨?_, ?_, ?_, ?_, ?_⟩
  · unfold AddStat
    rw [if_neg (by rintro ⟨hc, -⟩; exact Bool.noConfusion hc)]
    refine ⟨{ st_mode := computedMode meta forcedir, hit_count := 0, cache_date := now,
              isforce := forcedir, noobjcache := false, notruncate := 1,
              meta := meta.filter (fun p => curatedKey p.1) }, ?_, rfl⟩
    dsimp only
    split
    · split <;> split <;> exact mfind_massign_self _ key _
    · rename_i hcon
      exact absurd rfl hcon
  · unfold AddStat
    rw [if_neg (by rintro ⟨hc, -⟩; exact Bool.noConfusion hc)]
    dsimp only
    split
    · split <;> split <;> exact AddNotruncate_registers _ key h1 h2 h3 h4
    · rename_i hcon
      exact absurd rfl hcon
  · unfold AddStat
    rw [if_pos ⟨rfl, by omega⟩]
  · unfold UpdateMetaStats
    rw [if_pos (by omega)]
  · unfold AddNoObjectCache
    split
    · rfl
    · rw [if_pos (by omega)]

/-- Witness for C10 at a concrete input. -/
theorem c10_cachesize_zero_witness :
    (∃ ent, mfind (AddStat { wConf with CacheSize := 0 } "/a/b" wMeta false true 3).stat_cache
        "/a/b" = some ent ∧ ent.notruncate = 1) ∧
    ((mfind (AddStat { wConf with CacheSize := 0 } "/a/b" wMeta false true 3).notruncate_file_cache
        (mydirname "/a/b" ++ "/")).getD []).contains (mybasename "/a/b") = true ∧
    AddStat { wConf with CacheSize := 0 } "/a/b" wMeta false false 3 =
      { wConf with CacheSize := 0 } ∧
    UpdateMetaStats { wConf with CacheSize := 0 } "/a/b" wMeta 3 =
      { wConf with CacheSize := 0 } ∧
    AddNoObjectCache { wConf with CacheSize := 0 } "/a/b" 3 =
      { wConf with CacheSize := 0 } :=
  c10_cachesize_zero { wConf with CacheSize := 0 } "/a/b" wMeta false 3
    (by decide) (by decide) (by decide) (by decide) (by decide)

theorem lastChar_append_slash (k : String) : lastChar (k ++ "/") = some '/' := by
  unfold lastChar
  rw [show (k ++ "/").toList = k.toList ++ ['/'] from String.data_append k "/"]
  exact List.getLast?_concat _

theorem DelNotruncateCache_noop_slash (nt : List (String × notruncate_filelist_t)) (key : String)
    (h : key = "" ∨ lastChar key = some '/') : DelNotruncateCache nt key = nt := by
  unfold DelNotruncateCache
  rw [if_pos h]

theorem regIn_DelNotruncateCache_other (nt : List (String × notruncate_filelist_t))
    (key pd fn : String)
    (hne : ¬(pd = mydirname key ++ "/" ∧ fn = mybasename key)) :
    regIn (DelNotruncateCache nt key) pd fn = regIn nt pd fn := by
  unfold DelNotruncateCache
  split
  · rfl
  dsimp only
  split
  · rfl
  cases hpd : mfind nt (mydirname key ++ "/") with
  | none => rfl
  | some fl =>
    dsimp only
    by_cases hin : fl.contains (mybasename key)
    · rw [if_pos hin]
      by_cases hpdeq : pd = mydirname key ++ "/"
      · have hfn : fn ≠ mybasename key := fun he => hne ⟨hpdeq, he⟩
        subst hpdeq
        by_cases hemp : (fl.erase (mybasename key)).isEmpty
        · rw [if_pos hemp]
          unfold regIn
          rw [mfind_merase_self, hpd]
          have hnil : fl.erase (mybasename key) = [] := by
            cases hfl : fl.erase (mybasename key) with
            | nil => rfl
            | cons a t => rw [hfl] at hemp; simp [List.isEmpty] at hemp
          have : fn ∉ fl := by
            intro hmem
            have : fn ∈ fl.erase (mybasename key) := (List.mem_erase_of_ne hfn).mpr hmem
            rw [hnil] at this
            exact absurd this (List.not_mem_nil fn)
          simp [this]
        · rw [if_neg hemp]
          unfold regIn
          rw [mfind_mupdate_self nt _ _ (by rw [hpd]; rfl), hpd]
          simp [List.mem_erase_of_ne hfn]
      · by_cases hemp : (fl.erase (mybasename key)).isEmpty
        · rw [if_pos hemp]
          unfold regIn
          rw [mfind_merase_ne _ _ _ hpdeq]
        · rw [if_neg hemp]
          unfold regIn
          rw [mfind_mupdate_ne _ _ _ _ hpdeq]
    · rw [if_neg hin]

theorem regIn_DelNotruncateCache_self (nt : List (String × notruncate_filelist_t)) (key : String)
    (hwf : ∀ pd fl, mfind nt pd = some fl → fl.Nodup)
    (h1 : key ≠ "") (h2 : lastChar key ≠ some '/')
    (h3 : mydirname key ≠ "") (h4 : mybasename key ≠ "") :
    regIn (DelNotruncateCache nt key) (mydirname key ++ "/") (mybasename key) = false := by
  unfold DelNotruncateCache
  rw [if_neg (by rintro (h | h); exact h1 h; exact h2 h)]
  rw [if_neg (by rintro (h | h); exact h3 h; exact h4 h)]
  dsimp only
  cases hpd : mfind nt (mydirname key ++ "/") with
  | none =>
    unfold regIn
    rw [hpd]
    simp
  | some fl =>
    dsimp only
    have hnd : fl.Nodup := hwf _ _ hpd
    by_cases hin : fl.contains (mybasename key)
    · rw [if_pos hin]
      by_cases hemp : (fl.erase (mybasename key)).isEmpty
      · rw [if_pos hemp]
        unfold regIn
        rw [mfind_merase_self]
        simp
      · rw [if_neg hemp]
        unfold regIn
        rw [mfind_mupdate_self nt _ _ (by rw [hpd]; rfl)]
        simp [hnd.mem_erase_iff]
    · rw [if_neg hin]
      unfold regIn
      rw [hpd]
      simpa using hin

theorem isSome_false_eq_none {α : Type} {o : Option α} (h : o.isSome = false) : o = none := by
  cases o
  · rfl
  · simp at h

theorem DelStatHasLock_stat_other (S : StatCache) (key k2 : String)
    (h2 : k2 ≠ key) (h3 : k2 ≠ counterpart key) :
    mfind (DelStatHasLock S key).stat_cache k2 = mfind S.stat_cache k2 := by
  unfold DelStatHasLock
  dsimp only
  by_cases hf : (mfind S.stat_cache key).isSome = true
  · simp only [if_pos hf]
    split
    · exact mfind_merase_ne _ _ _ h2
    · split
      · exact (mfind_merase_ne _ _ _ h3).trans (mfind_merase_ne _ _ _ h2)
      · exact mfind_merase_ne _ _ _ h2
  · simp only [if_neg hf]
    split
    · rfl
    · split
      · exact mfind_merase_ne _ _ _ h3
      · rfl

theorem mfind_DelStatHasLock_cp (S : StatCache) (key : String)
    (hk0 : key ≠ "") (hkr : key ≠ "/") :
    mfind (DelStatHasLock S key).stat_cache (counterpart key) = none := by
  have hno : ¬(key = "" ∨ key = "/") := by
    rintro (h | h)
    · exact hk0 h
    · exact hkr h
  unfold DelStatHasLock
  dsimp only
  by_cases hf : (mfind S.stat_cache key).isSome = true
  · simp only [if_pos hf]
    rw [if_neg hno]
    split
    · exact mfind_merase_self _ _
    · rename_i hcp
      exact isSome_false_eq_none (Bool.not_eq_true _ |>.mp hcp)
  · simp only [if_neg hf]
    rw [if_neg hno]
    split
    · exact mfind_merase_self _ _
    · rename_i hcp
      exact isSome_false_eq_none (Bool.not_eq_true _ |>.mp hcp)

theorem DelStatHasLock_nt (S : StatCache) (key : String)
    (hk0 : key ≠ "") (hks : lastChar key ≠ some '/') :
    (DelStatHasLock S key).notruncate_file_cache =
      (if (mfind S.stat_cache key).isSome then
        DelNotruncateCache S.notruncate_file_cache key
       else S.notruncate_file_cache) := by
  have hkr : key ≠ "/" := by
    intro h
    rw [h] at hks
    exact hks rfl
  have hno : ¬(key = "" ∨ key = "/") := by
    rintro (h | h)
    · exact hk0 h
    · exact hkr h
  have hcp : counterpart key = key ++ "/" := by
    unfold counterpart
    rw [if_neg hks]
  unfold DelStatHasLock
  dsimp only
  by_cases hf : (mfind S.stat_cache key).isSome = true
  · simp only [if_pos hf]
    rw [if_neg hno]
    split
    · rw [hcp, DelNotruncateCache_noop_slash _ _ (Or.inr (lastChar_append_slash key))]
    · rfl
  · simp only [if_neg hf]
    rw [if_neg hno]
    split
    · rw [hcp, DelNotruncateCache_noop_slash _ _ (Or.inr (lastChar_append_slash key))]
    · rfl

/-- C6 (amended): for a non-empty key without a trailing slash, invalidate
removes exactly the stat-cache entries for the key and its slash counterpart;
the notruncate registration of the key is removed whenever its stat-cache
entry was present; every other stat-cache entry and every other registration
is unchanged (registered file lists are assumed duplicate-free, as the
notruncate map maintains them). -/
theorem c6_invalidate_frame (S : StatCache) (key : String)
    (hk0 : key ≠ "") (hks : lastChar key ≠ some '/')
    (h3 : mydirname key ≠ "") (h4 : mybasename key ≠ "")
    (hwf : ∀ pd fl, mfind S.notruncate_file_cache pd = some fl → fl.Nodup) :
    mfind (DelStatHasLock S key).stat_cache key = none ∧
    mfind (DelStatHasLock S key).stat_cache (counterpart key) = none ∧
    (∀ k2, k2 ≠ key → k2 ≠ counterpart key →
      mfind (DelStatHasLock S key).stat_cache k2 = mfind S.stat_cache k2) ∧
    ((mfind S.stat_cache key).isSome = true →
      regIn (DelStatHasLock S key).notruncate_file_cache
        (mydirname key ++ "/") (mybasename key) = false) ∧
    (∀ pd fn, ¬(pd = mydirname key ++ "/" ∧ fn = mybasename key) →
      regIn (DelStatHasLock S key).notruncate_file_cache pd fn =
        regIn S.notruncate_file_cache pd fn) := by
  have hkr : key ≠ "/" := by
    intro h
    rw [h] at hks
    exact hks rfl
  refine ⟨mfind_DelStatHasLock_self S key, mfind_DelStatHasLock_cp S key hk0 hkr,
          fun k2 ha hb => DelStatHasLock_stat_other S key k2 ha hb, ?_, ?_⟩
  · intro hf
    rw [DelStatHasLock_nt S key hk0 hks, if_pos hf]
    exact regIn_DelNotruncateCache_self S.notruncate_file_cache key hwf hk0 hks h3 h4
  · intro pd fn hne
    rw [DelStatHasLock_nt S key hk0 hks]
    split
    · exact regIn_DelNotruncateCache_other _ key pd fn hne
    · rfl

/-- Counterexample for C6 as stated: when the key has a notruncate
registration but no stat-cache entry, invalidate leaves the registration in
place, so the claimed unconditional removal of registrations fails. -/
theorem c6_invalidate_counterexample :
    mfind ({ wConf with notruncate_file_cache := [("/a/", ["b"])] } : StatCache).stat_cache
      "/a/b" = none ∧
    regIn (DelStatHasLock { wConf with notruncate_file_cache := [("/a/", ["b"])] }
      "/a/b").notruncate_file_cache (mydirname "/a/b" ++ "/") (mybasename "/a/b") = true := by
  decide

/-- Witness for the amended C6 at a concrete input. -/
theorem c6_invalidate_frame_witness :
    mfind (DelStatHasLock { wConf with
        stat_cache := [("/a/b", wEntry 5 0 1 false []), ("/x", wEntry 1 0 0 false [])],
        notruncate_file_cache := [("/a/", ["b"])] } "/a/b").stat_cache "/a/b" = none ∧
    mfind (DelStatHasLock { wConf with
        stat_cache := [("/a/b", wEntry 5 0 1 false []), ("/x", wEntry 1 0 0 false [])],
        notruncate_file_cache := [("/a/", ["b"])] } "/a/b").stat_cache
      (counterpart "/a/b") = none ∧
    (∀ k2, k2 ≠ "/a/b" → k2 ≠ counterpart "/a/b" →
      mfind (DelStatHasLock { wConf with
          stat_cache := [("/a/b", wEntry 5 0 1 false []), ("/x", wEntry 1 0 0 false [])],
          notruncate_file_cache := [("/a/", ["b"])] } "/a/b").stat_cache k2 =
        mfind ({ wConf with
          stat_cache := [("/a/b", wEntry 5 0 1 false []), ("/x", wEntry 1 0 0 false [])],
          notruncate_file_cache := [("/a/", ["b"])] } : StatCache).stat_cache k2) ∧
    ((mfind ({ wConf with
        stat_cache := [("/a/b", wEntry 5 0 1 false []), ("/x", wEntry 1 0 0 false [])],
        notruncate_file_cache := [("/a/", ["b"])] } : StatCache).stat_cache "/a/b").isSome = true →
      regIn (DelStatHasLock { wConf with
          stat_cache := [("/a/b", wEntry 5 0 1 false []), ("/x", wEntry 1 0 0 false [])],
          notruncate_file_cache := [("/a/", ["b"])] } "/a/b").notruncate_file_cache
        (mydirname "/a/b" ++ "/") (mybasename "/a/b") = false) ∧
    (∀ pd fn, ¬(pd = mydirname "/a/b" ++ "/" ∧ fn = mybasename "/a/b") →
      regIn (DelStatHasLock { wConf with
          stat_cache := [("/a/b", wEntry 5 0 1 false []), ("/x", wEntry 1 0 0 false [])],
          notruncate_file_cache := [("/a/", ["b"])] } "/a/b").notruncate_file_cache pd fn =
        regIn ({ wConf with
          stat_cache := [("/a/b", wEntry 5 0 1 false []), ("/x", wEntry 1 0 0 false [])],
          notruncate_file_cache := [("/a/", ["b"])] } : StatCache).notruncate_file_cache pd fn) :=
  c6_invalidate_frame _ "/a/b" (by decide) (by decide) (by decide) (by decide)
    (by intro pd fl h
        rw [mfind_cons] at h
        split at h
        · injection h with h2
          rw [← h2]
          decide
        · simp [mfind] at h)

/-- C7: the code violates the claimed independence of symlink-cache eviction
from the stat cache. Two states with identical symlink caches and
configurations, differing only in the stat cache, behave differently under
TruncateSymlink: with an empty stat cache the over-capacity symlink cache is
left untouched, with a non-empty stat cache its entries are evicted, because
the size guard consults stat_cache.empty() instead of the symlink map. -/
theorem c7_truncatesymlink_stat_dependence :
    ({ c7Base with stat_cache := [("/x", wEntry 0 0 0 false [])] } : StatCache).symlink_cache =
      c7Base.symlink_cache ∧
    (TruncateSymlink c7Base true 100).symlink_cache = c7Base.symlink_cache ∧
    (TruncateSymlink { c7Base with stat_cache := [("/x", wEntry 0 0 0 false [])] }
      true 100).symlink_cache = [] := by
  decide

theorem stripFolder_eq_of_none (n : String)
    (h : (findIdxSub ("_$folder$".toList) n.toList).isSome ≠ true) : stripFolder n = n := by
  unfold stripFolder
  cases hx : findIdxSub ("_$folder$".toList) n.toList with
  | none => rfl
  | some p => rw [hx] at h; simp at h

theorem normalize_dir (n : String) (is_dir : Bool)
    (hdir : (findIdxSub ("_$folder$".toList) n.toList).isSome = true ∨
      lastChar n = some '/' ∨ is_dir = true) :
    lastChar (normalizeInsertName n is_dir).1 = some '/' ∧
    IS_DIR_OBJ (normalizeInsertName n is_dir).2 = true ∧
    (normalizeInsertName n is_dir).1 =
      (if lastChar (stripFolder n) = some '/' then stripFolder n else stripFolder n ++ "/") ∧
    (is_dir || IS_DIR_OBJ (normalizeInsertName n is_dir).2) = true := by
  unfold normalizeInsertName
  dsimp only
  by_cases hf : (findIdxSub ("_$folder$".toList) n.toList).isSome = true
  · simp only [if_pos hf]
    by_cases h0 : lastChar (stripFolder n) = some '/'
    · simp [h0, IS_DIR_OBJ]
    · simp [h0, IS_DIR_OBJ, lastChar_append_slash]
  · simp only [if_neg hf]
    by_cases h0 : lastChar (stripFolder n) = some '/'
    · simp [h0, IS_DIR_OBJ]
    · have hsf : stripFolder n = n := stripFolder_eq_of_none n hf
      have hid : is_dir = true := by
        rcases hdir with h | h | h
        · exact absurd h hf
        · rw [← hsf] at h
          exact absurd h h0
        · exact h
      simp [h0, hid, IS_DIR_OBJ, lastChar_append_slash]

theorem mfind_addObject_self (objs : List (String × s3obj_entry)) (org new : String)
    (etag : Option String) (t : objtype_t) :
    ∃ e, mfind (addObject objs org new etag t) new = some e ∧ e.type = t := by
  unfold addObject
  cases hm : mfind objs new with
  | some e0 =>
    dsimp only
    exact ⟨_, mfind_mupdate_self objs new _ (by rw [hm]; rfl), rfl⟩
  | none =>
    dsimp only
    exact ⟨_, mfind_append_right objs new _ hm, rfl⟩

theorem mfind_insert_normalized_other (l : S3ObjList) (name norm : String) (t : objtype_t)
    (k : String) (hk : k ≠ name) :
    mfind ((insert_normalized l name norm t).2).objects k = mfind l.objects k := by
  unfold insert_normalized
  split
  · rfl
  split
  · rfl
  cases hm : mfind l.objects name with
  | some e =>
    dsimp only
    exact mfind_mupdate_ne _ _ _ _ hk
  | none =>
    dsimp only
    exact mfind_append_left _ _ _ _ hk

theorem lastChar_ne_of_empty (s : String) (c : Char) (h : lastChar s = some c) : s ≠ "" := by
  intro he
  rw [he] at h
  simp [lastChar] at h

/-- C8 (amended): for every non-empty name containing the "_$folder$" marker,
or ending in '/', or inserted with is_dir, the primary stored key is the
marker-stripped name with a single '/' appended when it does not already end
in '/' (names already ending in '/' are stored as is, keeping all their
terminal slashes); the recorded type is a directory type and IsDir on the
stored key returns true; insert with a null or empty name returns false and
changes nothing. -/
theorem c8_insert_directory (l : S3ObjList) (n : String) (etag : Option String) (is_dir : Bool)
    (hn : n ≠ "")
    (hdir : (findIdxSub ("_$folder$".toList) n.toList).isSome = true ∨
            lastChar n = some '/' ∨ is_dir = true) :
    lastChar (normalizeInsertName n is_dir).1 = some '/' ∧
    IS_DIR_OBJ (normalizeInsertName n is_dir).2 = true ∧
    (normalizeInsertName n is_dir).1 =
      (if lastChar (stripFolder n) = some '/' then stripFolder n else stripFolder n ++ "/") ∧
    (∃ e, mfind ((S3ObjList.insert l (some n) etag is_dir).2).objects
        (normalizeInsertName n is_dir).1 = some e ∧ IS_DIR_OBJ e.type = true) ∧
    ((S3ObjList.insert l (some n) etag is_dir).2).IsDir
      (some (normalizeInsertName n is_dir).1) = true ∧
    S3ObjList.insert l none etag is_dir = (false, l) ∧
    S3ObjList.insert l (some "") etag is_dir = (false, l) := by
  obtain ⟨p1, p2, p3, p4⟩ := normalize_dir n is_dir hdir
  have hne : (normalizeInsertName n is_dir).1 ≠ "" := lastChar_ne_of_empty _ _ p1
  have hstore : ∃ e, mfind ((S3ObjList.insert l (some n) etag is_dir).2).objects
      (normalizeInsertName n is_dir).1 = some e ∧ IS_DIR_OBJ e.type = true := by
    simp only [S3ObjList.insert]
    rw [if_neg hn, if_pos p4]
    split
    all_goals {
      rename_i hobjs
      obtain ⟨e, he, het⟩ := mfind_addObject_self _ n (normalizeInsertName n is_dir).1
        etag (normalizeInsertName n is_dir).2
      by_cases heq : n = (normalizeInsertName n is_dir).1
      · unfold insert_normalized
        rw [if_neg (by rintro (h | h); exact hn h; exact hne h), if_pos heq]
        exact ⟨e, he, by rw [het]; exact p2⟩
      · rw [mfind_insert_normalized_other _ n _ _ _ (fun h => heq h.symm)]
        exact ⟨e, he, by rw [het]; exact p2⟩
    }
  refine ⟨p1, p2, p3, hstore, ?_, rfl, rfl⟩
  obtain ⟨e, he, het⟩ := hstore
  unfold S3ObjList.IsDir S3ObjList.GetS3Obj
  dsimp only
  rw [if_neg hne, he]
  exact het

/-- Counterexample for C8 as stated: inserting "a//" stores the primary key
"a//", which is not any string terminated by exactly one '/'. -/
theorem c8_insert_counterexample :
    (S3ObjList.insert ⟨[]⟩ (some "a//") none false).2.objects.map Prod.fst = ["a//"] ∧
    ¬∃ w : String, "a//" = w ++ "/" ∧ lastChar w ≠ some '/' := by
  constructor
  · decide
  · rintro ⟨w, hw, hlc⟩
    have h1 : "a//".toList = w.toList ++ ['/'] := by
      rw [hw]
      exact String.data_append w "/"
    have h3 := congrArg List.dropLast h1
    rw [List.dropLast_concat] at h3
    apply hlc
    unfold lastChar
    rw [← h3]
    decide

/-- Witness for the amended C8 at a concrete input. -/
theorem c8_insert_directory_witness :
    lastChar (normalizeInsertName "dir_$folder$" false).1 = some '/' ∧
    IS_DIR_OBJ (normalizeInsertName "dir_$folder$" false).2 = true ∧
    (normalizeInsertName "dir_$folder$" false).1 =
      (if lastChar (stripFolder "dir_$folder$") = some '/' then stripFolder "dir_$folder$"
       else stripFolder "dir_$folder$" ++ "/") ∧
    (∃ e, mfind ((S3ObjList.insert ⟨[]⟩ (some "dir_$folder$") none false).2).objects
        (normalizeInsertName "dir_$folder$" false).1 = some e ∧ IS_DIR_OBJ e.type = true) ∧
    ((S3ObjList.insert ⟨[]⟩ (some "dir_$folder$") none false).2).IsDir
      (some (normalizeInsertName "dir_$folder$" false).1) = true ∧
    S3ObjList.insert ⟨[]⟩ none none false = (false, (⟨[]⟩ : S3ObjList)) ∧
    S3ObjList.insert ⟨[]⟩ (some "") none false = (false, (⟨[]⟩ : S3ObjList)) :=
  c8_insert_directory ⟨[]⟩ "dir_$folder$" none false (by decide) (Or.inl (by decide))

theorem npCount_cons (p : String × stat_cache_entry) (l : stat_cache_t) :
    npCount (p :: l) = (if p.2.notruncate = 0 then 1 else 0) + npCount l := by
  unfold npCount
  rw [List.filter_cons]
  by_cases h : p.2.notruncate = 0
  · simp [h, Nat.add_comm]
  · simp [h]

theorem pinCount_cons (p : String × stat_cache_entry) (l : stat_cache_t) :
    pinCount (p :: l) = (if p.2.notruncate = 0 then 0 else 1) + pinCount l := by
  unfold pinCount
  rw [List.filter_cons]
  by_cases h : p.2.notruncate = 0
  · simp [h]
  · simp [h, Nat.add_comm]

theorem trimCandidates_length (c : Nat) (L : List (String × stat_cache_entry)) :
    (trimCandidates c L).length = min c L.length := by
  unfold trimCandidates
  split
  · rw [List.length_take, List.length_insertionSort]
  · rename_i h
    omega

theorem truncLoop_length (l : List (String × stat_cache_entry)) : ∀ (c s : Nat)
    (L : List (String × stat_cache_entry)), L.length = min c s →
    (truncLoop l c L).length = min (c - pinCount l) (s + npCount l) := by
  induction l with
  | nil =>
    intro c s L hL
    unfold truncLoop
    simpa [pinCount, npCount] using hL
  | cons p rest ih =>
    intro c s L hL
    unfold truncLoop
    rw [npCount_cons, pinCount_cons]
    by_cases hc : c = 0
    · rw [if_pos hc]
      subst hc
      by_cases hp : p.2.notruncate = 0
      · simp only [if_pos hp]
        rw [hL]
        omega
      · simp only [if_neg hp]
        rw [hL]
        omega
    · rw [if_neg hc]
      by_cases hp : 0 < p.2.notruncate
      · rw [if_pos hp]
        have h1 : (trimCandidates (c - 1) L).length = min (c - 1) s := by
          rw [trimCandidates_length, hL]
          omega
        rw [ih (c - 1) s _ h1]
        have hp0 : ¬(p.2.notruncate = 0) := by omega
        simp [hp0]
        omega
      · rw [if_neg hp]
        have h1 : (trimCandidates c (L ++ [p])).length = min c (s + 1) := by
          rw [trimCandidates_length, List.length_append, hL]
          simp
          omega
        rw [ih c (s + 1) _ h1]
        have hp0 : p.2.notruncate = 0 := by omega
        simp [hp0]
        omega

theorem trimCandidates_subset (c : Nat) (L : List (String × stat_cache_entry)) :
    ∀ x ∈ trimCandidates c L, x ∈ L := by
  intro x hx
  unfold trimCandidates at hx
  split at hx
  · exact (List.perm_insertionSort entLE L).mem_iff.mp (List.take_subset _ _ hx)
  · exact hx

theorem truncLoop_subset (l : List (String × stat_cache_entry)) :
    ∀ (c : Nat) L x, x ∈ truncLoop l c L → x ∈ L ∨ x ∈ l := by
  induction l with
  | nil =>
    intro c L x hx
    unfold truncLoop at hx
    exact Or.inl hx
  | cons p rest ih =>
    intro c L x hx
    unfold truncLoop at hx
    by_cases hc : c = 0
    · rw [if_pos hc] at hx
      exact Or.inl hx
    · rw [if_neg hc] at hx
      by_cases hp : 0 < p.2.notruncate
      · rw [if_pos hp] at hx
        rcases ih _ _ _ hx with h | h
        · exact Or.inl (trimCandidates_subset _ _ _ h)
        · exact Or.inr (List.mem_cons_of_mem p h)
      · rw [if_neg hp] at hx
        rcases ih _ _ _ hx with h | h
        · rcases List.mem_append.mp (trimCandidates_subset _ _ _ h) with h2 | h2
          · exact Or.inl h2
          · exact Or.inr (List.mem_cons.mpr (Or.inl (List.mem_singleton.mp h2)))
        · exact Or.inr (List.mem_cons_of_mem p h)

theorem truncLoop_nonpinned (l : List (String × stat_cache_entry)) :
    ∀ (c : Nat) L, (∀ x ∈ L, x.2.notruncate = 0) →
    ∀ x ∈ truncLoop l c L, x.2.notruncate = 0 := by
  induction l with
  | nil =>
    intro c L hL x hx
    unfold truncLoop at hx
    exact hL x hx
  | cons p rest ih =>
    intro c L hL x hx
    unfold truncLoop at hx
    by_cases hc : c = 0
    · rw [if_pos hc] at hx
      exact hL x hx
    · rw [if_neg hc] at hx
      by_cases hp : 0 < p.2.notruncate
      · rw [if_pos hp] at hx
        exact ih _ _ (fun y hy => hL y (trimCandidates_subset _ _ _ hy)) x hx
      · rw [if_neg hp] at hx
        refine ih _ _ (fun y hy => ?_) x hx
        rcases List.mem_append.mp (trimCandidates_subset _ _ _ hy) with h2 | h2
        · exact hL y h2
        · rw [List.mem_singleton.mp h2]
          omega

theorem keysOf_append {α : Type} (m1 m2 : List (String × α)) :
    keysOf (m1 ++ m2) = keysOf m1 ++ keysOf m2 :=
  List.map_append _ m1 m2

theorem keysOf_mem_of_mem {α : Type} {m : List (String × α)} {x : String × α}
    (h : x ∈ m) : x.1 ∈ keysOf m :=
  List.mem_map_of_mem Prod.fst h

theorem trimCandidates_keys_nodup (c : Nat) (L : List (String × stat_cache_entry))
    (h : (keysOf L).Nodup) : (keysOf (trimCandidates c L)).Nodup := by
  unfold trimCandidates
  split
  · have hperm : List.Perm (keysOf (List.insertionSort entLE L)) (keysOf L) :=
      (List.perm_insertionSort entLE L).map Prod.fst
    have hnd : (keysOf (List.insertionSort entLE L)).Nodup := hperm.nodup_iff.mpr h
    exact hnd.sublist ((List.take_sublist _ _).map Prod.fst)
  · exact h

theorem truncLoop_keys_nodup (l : List (String × stat_cache_entry)) :
    ∀ (c : Nat) L, (keysOf l).Nodup → (keysOf L).Nodup →
    (∀ k ∈ keysOf L, k ∉ keysOf l) →
    (keysOf (truncLoop l c L)).Nodup := by
  induction l with
  | nil =>
    intro c L _ h2 _
    unfold truncLoop
    exact h2
  | cons p rest ih =>
    intro c L h1 h2 h3
    unfold truncLoop
    have h1t : (keysOf rest).Nodup := (List.nodup_cons.mp h1).2
    have hph : p.1 ∉ keysOf rest := (List.nodup_cons.mp h1).1
    by_cases hc : c = 0
    · rw [if_pos hc]
      exact h2
    · rw [if_neg hc]
      by_cases hp : 0 < p.2.notruncate
      · rw [if_pos hp]
        refine ih _ _ h1t (trimCandidates_keys_nodup _ _ h2) (fun k hk => ?_)
        obtain ⟨q, hq, rfl⟩ := List.mem_map.mp hk
        have : q.1 ∈ keysOf L := keysOf_mem_of_mem (trimCandidates_subset _ _ _ hq)
        exact fun hmem => h3 _ this (List.mem_cons_of_mem _ hmem)
      · rw [if_neg hp]
        have hpL : p.1 ∉ keysOf L := by
          intro hmem
          exact h3 _ hmem (List.mem_cons_self _ _)
        have hnd2 : (keysOf (L ++ [p])).Nodup := by
          rw [keysOf_append]
          refine List.Nodup.append h2 (List.nodup_singleton _) ?_
          intro a haL hap
          rw [show keysOf [p] = [p.1] from rfl, List.mem_singleton] at hap
          exact hpL (hap ▸ haL)
        refine ih _ _ h1t (trimCandidates_keys_nodup _ _ hnd2) (fun k hk => ?_)
        obtain ⟨q, hq, rfl⟩ := List.mem_map.mp hk
        have hqm : q ∈ L ++ [p] := trimCandidates_subset _ _ _ hq
        rcases List.mem_append.mp hqm with hql | hqp
        · have : q.1 ∈ keysOf L := keysOf_mem_of_mem hql
          exact fun hmem => h3 _ this (List.mem_cons_of_mem _ hmem)
        · rw [List.mem_singleton.mp hqp]
          exact hph

theorem any_fst_eq_mem_keys {α : Type} (ev : List (String × α)) (k : String) :
    ev.any (fun q => q.1 == k) = decide (k ∈ keysOf ev) := by
  induction ev with
  | nil => rfl
  | cons q t ih =>
    have hk2 : keysOf (q :: t) = q.1 :: keysOf t := rfl
    rw [List.any_cons, ih, hk2]
    by_cases h : q.1 = k <;> by_cases hm : k ∈ keysOf t
    · simp [h, hm]
    · simp [h, hm]
    · simp [h, hm]
    · simp [h, hm, Ne.symm h]

theorem length_filter_split {α : Type} (l : List α) (p q : α → Bool) :
    (l.filter p).length =
      (l.filter (fun a => p a && q a)).length + (l.filter (fun a => p a && !q a)).length := by
  induction l with
  | nil => rfl
  | cons a t ih =>
    by_cases hp : p a <;> by_cases hq : q a <;>
      simp [List.filter_cons, hp, hq, ih] <;> omega

theorem key_unique_mem {α : Type} (sc : List (String × α)) (hnd : (keysOf sc).Nodup)
    {x y : String × α} (hx : x ∈ sc) (hy : y ∈ sc) (hk : x.1 = y.1) : x = y := by
  induction sc with
  | nil => exact absurd hx (List.not_mem_nil x)
  | cons p t ih =>
    have hnd1 : p.1 ∉ keysOf t := (List.nodup_cons.mp hnd).1
    have hndt : (keysOf t).Nodup := (List.nodup_cons.mp hnd).2
    rcases List.mem_cons.mp hx with hx1 | hx2 <;> rcases List.mem_cons.mp hy with hy1 | hy2
    · rw [hx1, hy1]
    · exfalso
      apply hnd1
      rw [← hx1, hk]
      exact keysOf_mem_of_mem hy2
    · exfalso
      apply hnd1
      rw [← hy1, ← hk]
      exact keysOf_mem_of_mem hx2
    · exact ih hndt hx2 hy2

theorem filter_key_unique {α : Type} (sc : List (String × α)) (k : String)
    (hnd : (keysOf sc).Nodup) (hk : k ∈ keysOf sc) :
    (sc.filter (fun p => p.1 == k)).length = 1 := by
  induction sc with
  | nil => simp [keysOf] at hk
  | cons p t ih =>
    have hnd1 : p.1 ∉ keysOf t := (List.nodup_cons.mp hnd).1
    have hndt : (keysOf t).Nodup := (List.nodup_cons.mp hnd).2
    by_cases hp : p.1 = k
    · have hempty : t.filter (fun q => q.1 == k) = [] := by
        rw [List.filter_eq_nil_iff]
        intro q hq
        simp only [beq_iff_eq]
        intro hqk
        exact hnd1 (by rw [hp, ← hqk]; exact keysOf_mem_of_mem hq)
      simp [List.filter_cons, hp, hempty]
    · have hk' : k ∈ keysOf t := by
        have hk2 : k ∈ p.1 :: keysOf t := hk
        rcases List.mem_cons.mp hk2 with h | h
        · exact absurd h.symm hp
        · exact h
      simpa [List.filter_cons, hp] using ih hndt hk'

theorem length_filter_mem_keys {α : Type} (ks : List String) :
    ∀ (sc : List (String × α)), ks.Nodup → (keysOf sc).Nodup →
    (∀ k ∈ ks, k ∈ keysOf sc) →
    (sc.filter (fun p => decide (p.1 ∈ ks))).length = ks.length := by
  induction ks with
  | nil =>
    intro sc _ _ _
    simp
  | cons k ks' ih =>
    intro sc hksnd hscnd hksm
    have hknot : k ∉ ks' := (List.nodup_cons.mp hksnd).1
    have hks'nd : ks'.Nodup := (List.nodup_cons.mp hksnd).2
    have hsplit := length_filter_split sc (fun p => decide (p.1 ∈ k :: ks')) (fun p => p.1 == k)
    have he1 : sc.filter (fun p => decide (p.1 ∈ k :: ks') && (p.1 == k)) =
        sc.filter (fun p => p.1 == k) := by
      apply List.filter_congr
      intro p _
      by_cases hp : p.1 = k <;> simp [hp]
    have he2 : sc.filter (fun p => decide (p.1 ∈ k :: ks') && !(p.1 == k)) =
        sc.filter (fun p => decide (p.1 ∈ ks')) := by
      apply List.filter_congr
      intro p _
      by_cases hp : p.1 = k
      · simp [hp, hknot]
      · simp [hp]
    rw [he1, he2] at hsplit
    rw [hsplit, filter_key_unique sc k hscnd (hksm k (List.mem_cons_self _ _)),
      ih sc hks'nd hscnd (fun k2 hk2 => hksm k2 (List.mem_cons_of_mem _ hk2))]
    simp [Nat.add_comm]

theorem np_filter_evict (sc ev : stat_cache_t)
    (hnd : (keysOf sc).Nodup)
    (hsub : ∀ q ∈ ev, q ∈ sc)
    (hnp : ∀ q ∈ ev, q.2.notruncate = 0)
    (hevnd : (keysOf ev).Nodup) :
    npCount (sc.filter (fun p => !(ev.any (fun q => q.1 == p.1)))) = npCount sc - ev.length := by
  have hrw : (sc.filter (fun p => !(ev.any (fun q => q.1 == p.1)))) =
      sc.filter (fun p => !(decide (p.1 ∈ keysOf ev))) := by
    apply List.filter_congr
    intro p _
    rw [any_fst_eq_mem_keys]
  rw [hrw]
  unfold npCount
  rw [List.filter_filter]
  have hsplit := length_filter_split sc (fun p => p.2.notruncate == 0)
    (fun p => decide (p.1 ∈ keysOf ev))
  have hinnp : ∀ p ∈ sc, (p.1 ∈ keysOf ev) → p.2.notruncate = 0 := by
    intro p hpsc hpk
    obtain ⟨q, hqev, hqk⟩ := List.mem_map.mp hpk
    have : p = q := key_unique_mem sc hnd hpsc (hsub q hqev) hqk.symm
    rw [this]
    exact hnp q hqev
  have he1 : sc.filter (fun p => (p.2.notruncate == 0) && decide (p.1 ∈ keysOf ev)) =
      sc.filter (fun p => decide (p.1 ∈ keysOf ev)) := by
    apply List.filter_congr
    intro p hp
    by_cases hm : p.1 ∈ keysOf ev
    · simp [hm, hinnp p hp hm]
    · simp [hm]
  have he3 : (sc.filter (fun p => decide (p.1 ∈ keysOf ev))).length = ev.length := by
    rw [length_filter_mem_keys (keysOf ev) sc hevnd hnd
      (fun k hk => by
        obtain ⟨q, hqev, hqk⟩ := List.mem_map.mp hk
        rw [← hqk]
        exact keysOf_mem_of_mem (hsub q hqev))]
    exact List.length_map ev Prod.fst
  rw [he1, he3] at hsplit
  omega

theorem truncLoop_minimal (l : List (String × stat_cache_entry)) :
    ∀ (c : Nat) (L D : List (String × stat_cache_entry)),
    L.length ≤ c →
    (D ≠ [] → L.length = c) →
    (∀ x ∈ L, ∀ y ∈ D, entLE x y) →
    (∀ x ∈ L, x.2.notruncate = 0) →
    ∀ x ∈ truncLoop l c L, ∀ y,
      (y ∈ D ∨ y ∈ L ∨ (y ∈ l ∧ y.2.notruncate = 0)) →
      y.1 ∉ keysOf (truncLoop l c L) →
      entLE x y := by
  induction l with
  | nil =>
    intro c L D hLc hD h1 h2 x hx y hy hynot
    unfold truncLoop at hx hynot
    rcases hy with h | h | h
    · exact h1 x hx y h
    · exact absurd (keysOf_mem_of_mem h) hynot
    · exact absurd h.1 (List.not_mem_nil y)
  | cons p rest ih =>
    intro c L D hLc hD h1 h2 x hx y hy hynot
    unfold truncLoop at hx hynot
    by_cases hc : c = 0
    · rw [if_pos hc] at hx
      subst hc
      have hL0 : L = [] := List.length_eq_zero.mp (Nat.le_zero.mp hLc)
      rw [hL0] at hx
      exact absurd hx (List.not_mem_nil x)
    · rw [if_neg hc] at hx hynot
      by_cases hp : 0 < p.2.notruncate
      · rw [if_pos hp] at hx hynot
        by_cases htr : c - 1 < L.length
        · have hLeq : trimCandidates (c - 1) L = (List.insertionSort entLE L).take (c - 1) := by
            unfold trimCandidates
            rw [if_pos htr]
          have hsorted := List.sorted_insertionSort entLE L
          refine ih (c - 1) _ (D ++ (List.insertionSort entLE L).drop (c - 1))
            ?_ ?_ ?_ ?_ x hx y ?_ hynot
          · rw [trimCandidates_length]
            omega
          · intro _
            rw [trimCandidates_length]
            omega
          · intro x2 hx2 y2 hy2
            rcases List.mem_append.mp hy2 with hy2d | hy2drop
            · exact h1 x2 (trimCandidates_subset _ _ _ hx2) y2 hy2d
            · rw [hLeq] at hx2
              exact hsorted.rel_of_mem_take_of_mem_drop hx2 hy2drop
          · exact fun x2 hx2 => h2 x2 (trimCandidates_subset _ _ _ hx2)
          · rcases hy with h | h | h
            · exact Or.inl (List.mem_append.mpr (Or.inl h))
            · have hmem : y ∈ (List.insertionSort entLE L).take (c - 1) ++
                  (List.insertionSort entLE L).drop (c - 1) := by
                rw [List.take_append_drop]
                exact (List.perm_insertionSort entLE L).mem_iff.mpr h
              rcases List.mem_append.mp hmem with hh | hh
              · refine Or.inr (Or.inl ?_)
                rw [hLeq]
                exact hh
              · exact Or.inl (List.mem_append.mpr (Or.inr hh))
            · rcases List.mem_cons.mp h.1 with hyp | hyr
              · exfalso
                have := h.2
                rw [hyp] at this
                omega
              · exact Or.inr (Or.inr ⟨hyr, h.2⟩)
        · have hLeq : trimCandidates (c - 1) L = L := by
            unfold trimCandidates
            rw [if_neg htr]
          refine ih (c - 1) _ D ?_ ?_ ?_ ?_ x hx y ?_ hynot
          · rw [hLeq]
            omega
          · intro hDne
            exfalso
            have := hD hDne
            omega
          · intro x2 hx2 y2 hy2
            rw [hLeq] at hx2
            exact h1 x2 hx2 y2 hy2
          · intro x2 hx2
            rw [hLeq] at hx2
            exact h2 x2 hx2
          · rcases hy with h | h | h
            · exact Or.inl h
            · refine Or.inr (Or.inl ?_)
              rw [hLeq]
              exact h
            · rcases List.mem_cons.mp h.1 with hyp | hyr
              · exfalso
                have := h.2
                rw [hyp] at this
                omega
              · exact Or.inr (Or.inr ⟨hyr, h.2⟩)
      · rw [if_neg hp] at hx hynot
        have hpnp : p.2.notruncate = 0 := by omega
        by_cases htr : c < (L ++ [p]).length
        · have hLL : L.length = c := by
            rw [List.length_append] at htr
            simp at htr
            omega
          have hLeq : trimCandidates c (L ++ [p]) =
              (List.insertionSort entLE (L ++ [p])).take c := by
            unfold trimCandidates
            rw [if_pos htr]
          have hsorted := List.sorted_insertionSort entLE (L ++ [p])
          have hmemLp : ∀ z, z ∈ L ++ [p] →
              z ∈ (List.insertionSort entLE (L ++ [p])).take c ++
                (List.insertionSort entLE (L ++ [p])).drop c := by
            intro z hz
            rw [List.take_append_drop]
            exact (List.perm_insertionSort entLE (L ++ [p])).mem_iff.mpr hz
          refine ih c _ (D ++ (List.insertionSort entLE (L ++ [p])).drop c)
            ?_ ?_ ?_ ?_ x hx y ?_ hynot
          · rw [trimCandidates_length]
            omega
          · intro _
            rw [trimCandidates_length, List.length_append]
            simp
            omega
          · intro x2 hx2 y2 hy2
            rcases List.mem_append.mp hy2 with hy2d | hy2drop
            · -- y2 from the old ghost drop set
              rcases List.mem_append.mp (trimCandidates_subset _ _ _ hx2) with hx2L | hx2p
              · exact h1 x2 hx2L y2 hy2d
              · -- x2 = p
                have hx2p' : x2 = p := List.mem_singleton.mp hx2p
                by_cases hpL : p ∈ L
                · rw [hx2p']
                  exact h1 p hpL y2 hy2d
                · -- find z in the drop part that comes from L
                  have hdropne : (List.insertionSort entLE (L ++ [p])).drop c ≠ [] := by
                    intro hnil
                    have := congrArg List.length hnil
                    rw [List.length_drop, List.length_insertionSort, List.length_append] at this
                    simp at this
                    omega
                  obtain ⟨z, hz⟩ := List.exists_mem_of_ne_nil _ hdropne
                  have hzmem : z ∈ L ++ [p] := by
                    refine (List.perm_insertionSort entLE (L ++ [p])).mem_iff.mp ?_
                    exact List.mem_of_mem_drop hz
                  rcases List.mem_append.mp hzmem with hzL | hzp
                  · -- transitivity through z
                    have e1 : entLE x2 z := by
                      rw [hLeq] at hx2
                      exact hsorted.rel_of_mem_take_of_mem_drop hx2 hz
                    have e2 : entLE z y2 := h1 z hzL y2 hy2d
                    exact IsTrans.trans x2 z y2 e1 e2
                  · -- z = p as well: impossible since p occurs only once
                    exfalso
                    have hzp' : z = p := List.mem_singleton.mp hzp
                    have hptake : p ∈ (List.insertionSort entLE (L ++ [p])).take c := by
                      rw [hLeq] at hx2
                      exact hx2p' ▸ hx2
                    have hpdrop : p ∈ (List.insertionSort entLE (L ++ [p])).drop c :=
                      hzp' ▸ hz
                    have hperm2 : List.Perm ((List.insertionSort entLE (L ++ [p])).take c ++
                        (List.insertionSort entLE (L ++ [p])).drop c) (L ++ [p]) := by
                      rw [List.take_append_drop]
                      exact List.perm_insertionSort entLE (L ++ [p])
                    have hcnt := hperm2.countP_eq (fun z => decide (z = p))
                    rw [List.countP_append, List.countP_append] at hcnt
                    have hc1 : 0 < List.countP (fun z => decide (z = p))
                        ((List.insertionSort entLE (L ++ [p])).take c) :=
                      List.countP_pos_iff.mpr ⟨p, hptake, by simp⟩
                    have hc2 : 0 < List.countP (fun z => decide (z = p))
                        ((List.insertionSort entLE (L ++ [p])).drop c) :=
                      List.countP_pos_iff.mpr ⟨p, hpdrop, by simp⟩
                    have hc3 : List.countP (fun z => decide (z = p)) [p] = 1 := by simp
                    have hc4 : 0 < List.countP (fun z => decide (z = p)) L := by omega
                    obtain ⟨a, haL, ha⟩ := List.countP_pos_iff.mp hc4
                    rw [decide_eq_true_iff] at ha
                    exact hpL (ha ▸ haL)
            · -- y2 in the newly dropped part: sorted comparison
              rw [hLeq] at hx2
              exact hsorted.rel_of_mem_take_of_mem_drop hx2 hy2drop
          · intro x2 hx2
            rcases List.mem_append.mp (trimCandidates_subset _ _ _ hx2) with hx2L | hx2p
            · exact h2 x2 hx2L
            · rw [List.mem_singleton.mp hx2p]
              exact hpnp
          · rcases hy with h | h | h
            · exact Or.inl (List.mem_append.mpr (Or.inl h))
            · rcases List.mem_append.mp (hmemLp y (List.mem_append.mpr (Or.inl h))) with hh | hh
              · refine Or.inr (Or.inl ?_)
                rw [hLeq]
                exact hh
              · exact Or.inl (List.mem_append.mpr (Or.inr hh))
            · rcases List.mem_cons.mp h.1 with hyp | hyr
              · rcases List.mem_append.mp
                  (hmemLp y (by rw [hyp]; exact List.mem_append.mpr (Or.inr (List.mem_singleton.mpr rfl)))) with hh | hh
                · refine Or.inr (Or.inl ?_)
                  rw [hLeq]
                  exact hh
                · exact Or.inl (List.mem_append.mpr (Or.inr hh))
              · exact Or.inr (Or.inr ⟨hyr, h.2⟩)
        · have hLeq : trimCandidates c (L ++ [p]) = L ++ [p] := by
            unfold trimCandidates
            rw [if_neg htr]
          refine ih c _ D ?_ ?_ ?_ ?_ x hx y ?_ hynot
          · rw [hLeq]
            omega
          · intro hDne
            exfalso
            have h3 := hD hDne
            rw [List.length_append] at htr
            simp at htr
            omega
          · intro x2 hx2 y2 hy2
            exfalso
            have h3 := hD (List.ne_nil_of_mem hy2)
            rw [List.length_append] at htr
            simp at htr
            omega
          · intro x2 hx2
            rw [hLeq] at hx2
            rcases List.mem_append.mp hx2 with hx2L | hx2p
            · exact h2 x2 hx2L
            · rw [List.mem_singleton.mp hx2p]
              exact hpnp
          · rcases hy with h | h | h
            · exact Or.inl h
            · refine Or.inr (Or.inl ?_)
              rw [hLeq]
              exact List.mem_append.mpr (Or.inl h)
            · rcases List.mem_cons.mp h.1 with hyp | hyr
              · refine Or.inr (Or.inl ?_)
                rw [hLeq, hyp]
                exact List.mem_append.mpr (Or.inr (List.mem_singleton.mpr rfl))
              · exact Or.inr (Or.inr ⟨hyr, h.2⟩)

theorem npCount_le_length (l : stat_cache_t) : npCount l ≤ l.length :=
  List.length_filter_le _ l

theorem npCount_append (l1 l2 : stat_cache_t) :
    npCount (l1 ++ l2) = npCount l1 + npCount l2 := by
  unfold npCount
  rw [List.filter_append, List.length_append]

theorem np_pin_length (l : stat_cache_t) : npCount l + pinCount l = l.length := by
  induction l with
  | nil => rfl
  | cons p t ih =>
    rw [npCount_cons, pinCount_cons]
    by_cases h : p.2.notruncate = 0 <;> simp [h] <;> omega

theorem mfind_none_iff_not_mem_keys {α : Type} (m : List (String × α)) (k : String) :
    mfind m k = none ↔ k ∉ keysOf m := by
  induction m with
  | nil => simp [mfind, keysOf]
  | cons p t ih =>
    rw [mfind_cons]
    have hk : keysOf (p :: t) = p.1 :: keysOf t := rfl
    rw [hk]
    by_cases h : p.1 = k
    · simp [h]
    · simp only [if_neg h, ih, List.mem_cons]
      constructor
      · rintro hnot (he | hm)
        · exact h he.symm
        · exact hnot hm
      · intro hnot hm
        exact hnot (Or.inr hm)

theorem mfind_some_mem {α : Type} {m : List (String × α)} {k : String} {v : α}
    (h : mfind m k = some v) : (k, v) ∈ m := by
  induction m with
  | nil => simp [mfind] at h
  | cons p t ih =>
    rw [mfind_cons] at h
    by_cases hp : p.1 = k
    · rw [if_pos hp] at h
      injection h with h2
      have hpv : p = (k, v) := by rw [← hp, ← h2]
      rw [hpv]
      exact List.mem_cons_self _ _
    · rw [if_neg hp] at h
      exact List.mem_cons_of_mem p (ih h)

theorem mfind_filter_some {α : Type} (m : List (String × α)) (pred : String × α → Bool)
    (k : String) (v : α) (h : mfind m k = some v) (hp : pred (k, v) = true) :
    mfind (m.filter pred) k = some v := by
  induction m with
  | nil => simp [mfind] at h
  | cons p t ih =>
    rw [mfind_cons] at h
    by_cases hpk : p.1 = k
    · rw [if_pos hpk] at h
      injection h with h2
      have hpv : p = (k, v) := by
        rw [← hpk, ← h2]
      rw [List.filter_cons, hpv, hp]
      simp [mfind_cons]
    · rw [if_neg hpk] at h
      rw [List.filter_cons]
      by_cases hpp : pred p = true
      · rw [if_pos hpp, mfind_cons, if_neg hpk]
        exact ih h
      · rw [if_neg hpp]
        exact ih h

theorem mfind_filter_none {α : Type} (m : List (String × α)) (pred : String × α → Bool)
    (k : String) (h : mfind m k = none) : mfind (m.filter pred) k = none := by
  induction m with
  | nil => rfl
  | cons p t ih =>
    rw [mfind_cons] at h
    by_cases hpk : p.1 = k
    · rw [if_pos hpk] at h
      exact absurd h (by simp)
    · rw [if_neg hpk] at h
      rw [List.filter_cons]
      by_cases hpp : pred p = true
      · rw [if_pos hpp, mfind_cons, if_neg hpk]
        exact ih h
      · rw [if_neg hpp]
        exact ih h

theorem sweepExpired_keys_nodup (S : StatCache) (now : Int)
    (hnd : (keysOf S.stat_cache).Nodup) : (keysOf (sweepExpired S now)).Nodup := by
  unfold sweepExpired
  split
  · exact hnd.sublist ((List.filter_sublist _).map Prod.fst)
  · exact hnd

theorem mfind_sweepExpired_none (S : StatCache) (now : Int) (k : String)
    (h : mfind S.stat_cache k = none) : mfind (sweepExpired S now) k = none := by
  unfold sweepExpired
  split
  · exact mfind_filter_none _ _ _ h
  · exact h

theorem mfind_sweepExpired_pinned (S : StatCache) (now : Int) (k : String)
    (ent : stat_cache_entry) (h : mfind S.stat_cache k = some ent)
    (hpin : 0 < ent.notruncate) : mfind (sweepExpired S now) k = some ent := by
  unfold sweepExpired
  split
  · refine mfind_filter_some _ _ _ _ h ?_
    have : ¬(ent.notruncate = 0) := by omega
    simp [this]
  · exact h

theorem mfind_TruncateCache_none (S : StatCache) (c : Bool) (now : Int) (k : String)
    (h : mfind S.stat_cache k = none) :
    mfind (TruncateCache S c now).stat_cache k = none := by
  unfold TruncateCache
  split
  · exact h
  · dsimp only
    split
    · exact mfind_sweepExpired_none S now k h
    · exact mfind_filter_none _ _ _ (mfind_sweepExpired_none S now k h)

theorem TruncateCache_keys_nodup (S : StatCache) (c : Bool) (now : Int)
    (hnd : (keysOf S.stat_cache).Nodup) :
    (keysOf (TruncateCache S c now).stat_cache).Nodup := by
  unfold TruncateCache
  split
  · exact hnd
  · dsimp only
    split
    · exact sweepExpired_keys_nodup S now hnd
    · exact (sweepExpired_keys_nodup S now hnd).sublist ((List.filter_sublist _).map Prod.fst)

theorem TruncateCache_pinned (S : StatCache) (c : Bool) (now : Int) (k : String)
    (ent : stat_cache_entry) (hnd : (keysOf S.stat_cache).Nodup)
    (h : mfind S.stat_cache k = some ent) (hpin : 0 < ent.notruncate) :
    mfind (TruncateCache S c now).stat_cache k = some ent := by
  unfold TruncateCache
  split
  · exact h
  · dsimp only
    split
    · exact mfind_sweepExpired_pinned S now k ent h hpin
    · have h1 : mfind (sweepExpired S now) k = some ent :=
        mfind_sweepExpired_pinned S now k ent h hpin
      have hnd1 : (keysOf (sweepExpired S now)).Nodup := sweepExpired_keys_nodup S now hnd
      refine mfind_filter_some _ _ _ _ h1 ?_
      have hknot : k ∉ keysOf (truncLoop (sweepExpired S now)
          ((sweepExpired S now).length - S.CacheSize + 1) []) := by
        intro hkmem
        obtain ⟨q, hqev, hqk⟩ := List.mem_map.mp hkmem
        have hqsc : q ∈ sweepExpired S now := by
          rcases truncLoop_subset _ _ _ _ hqev with hh | hh
          · exact absurd hh (List.not_mem_nil q)
          · exact hh
        have hqnp : q.2.notruncate = 0 :=
          truncLoop_nonpinned _ _ _ (fun x hx => absurd hx (List.not_mem_nil x)) q hqev
        have : q = (k, ent) := key_unique_mem _ hnd1 hqsc (mfind_some_mem h1) hqk
        rw [this] at hqnp
        simp at hqnp
        omega
      rw [any_fst_eq_mem_keys]
      simp [hknot]

theorem TruncateCache_np_lt (S : StatCache) (now : Int)
    (hcs : 1 ≤ S.CacheSize) (hnd : (keysOf S.stat_cache).Nodup) :
    npCount (TruncateCache S true now).stat_cache < S.CacheSize := by
  unfold TruncateCache
  split
  · rename_i hcond
    simp only [Bool.or_eq_true, Bool.and_eq_true, decide_eq_true_eq] at hcond
    rcases hcond with he | ⟨-, hlt⟩
    · have hemp : S.stat_cache = [] := List.isEmpty_iff.mp he
      rw [hemp]
      have h0 : npCount ([] : stat_cache_t) = 0 := rfl
      omega
    · have hb := npCount_le_length S.stat_cache
      omega
  · dsimp only
    split
    · rename_i hlt
      have hb := npCount_le_length (sweepExpired S now)
      exact Nat.lt_of_le_of_lt hb hlt
    · rename_i hnlt
      have hge1 : S.CacheSize ≤ (sweepExpired S now).length := Nat.le_of_not_lt hnlt
      have hnd1 : (keysOf (sweepExpired S now)).Nodup := sweepExpired_keys_nodup S now hnd
      have hsub : ∀ q ∈ truncLoop (sweepExpired S now)
          ((sweepExpired S now).length - S.CacheSize + 1) [], q ∈ sweepExpired S now := by
        intro q hq
        rcases truncLoop_subset _ _ _ _ hq with h | h
        · exact absurd h (List.not_mem_nil q)
        · exact h
      have hnp : ∀ q ∈ truncLoop (sweepExpired S now)
          ((sweepExpired S now).length - S.CacheSize + 1) [], q.2.notruncate = 0 :=
        truncLoop_nonpinned _ _ _ (fun x hx => absurd hx (List.not_mem_nil x))
      have hevnd : (keysOf (truncLoop (sweepExpired S now)
          ((sweepExpired S now).length - S.CacheSize + 1) [])).Nodup :=
        truncLoop_keys_nodup _ _ _ hnd1 (by simp [keysOf]) (by simp [keysOf])
      have hlen := truncLoop_length (sweepExpired S now)
        ((sweepExpired S now).length - S.CacheSize + 1) 0 [] (by simp)
      have hnpf := np_filter_evict (sweepExpired S now)
        (truncLoop (sweepExpired S now) ((sweepExpired S now).length - S.CacheSize + 1) [])
        hnd1 hsub hnp hevnd
      have hpl := np_pin_length (sweepExpired S now)
      dsimp only
      rw [hnpf]
      omega

theorem c4_aux_guard (S : StatCache) (hcs : 1 ≤ S.CacheSize)
    (hge : S.CacheSize ≤ S.stat_cache.length) :
    (S.stat_cache.isEmpty || (true && decide (S.stat_cache.length < S.CacheSize))) = false := by
  have hne : S.stat_cache ≠ [] := by
    intro h
    rw [h] at hge
    simp at hge
    omega
  have h1 : S.stat_cache.isEmpty = false := by
    cases he : S.stat_cache.isEmpty
    · rfl
    · exact absurd (List.isEmpty_iff.mp he) hne
  have h2 : decide (S.stat_cache.length < S.CacheSize) = false := by
    simp only [decide_eq_false_iff_not, not_lt]
    exact hge
  rw [h1, h2]
  rfl

/-- C4 (amended): two-phase truncation on an at-or-over-capacity cache.
Phase 1 drops exactly the expired non-pinned entries (when expiry is on);
phase 2, reached only when still at or over capacity, evicts a set of
non-pinned entries of size min(excess+1-pinned, nonpinned) -- each pinned
entry consumes one unit of the erase budget instead of being evicted --
and every evicted entry precedes every surviving non-pinned entry in the
ascending (cache_date, hit_count) order; no pinned entry is evicted. -/
theorem c4_truncate_two_phase (S : StatCache) (now : Int)
    (hcs : 1 ≤ S.CacheSize) (hge : S.CacheSize ≤ S.stat_cache.length) :
    (∀ p, p ∈ sweepExpired S now ↔ (p ∈ S.stat_cache ∧
      ¬(S.IsExpireTime = true ∧ p.2.notruncate = 0 ∧
        isExpired now S.ExpireTime p.2.cache_date = true))) ∧
    ((sweepExpired S now).length < S.CacheSize →
      (TruncateCache S true now).stat_cache = sweepExpired S now) ∧
    (S.CacheSize ≤ (sweepExpired S now).length →
      (TruncateCache S true now).stat_cache =
        (sweepExpired S now).filter (fun p =>
          !((truncLoop (sweepExpired S now)
              ((sweepExpired S now).length - S.CacheSize + 1) []).any
            (fun q => q.1 == p.1))) ∧
      (∀ q ∈ truncLoop (sweepExpired S now)
          ((sweepExpired S now).length - S.CacheSize + 1) [],
        q ∈ sweepExpired S now ∧ q.2.notruncate = 0) ∧
      (truncLoop (sweepExpired S now)
          ((sweepExpired S now).length - S.CacheSize + 1) []).length =
        min ((sweepExpired S now).length - S.CacheSize + 1 - pinCount (sweepExpired S now))
          (npCount (sweepExpired S now)) ∧
      (∀ x ∈ truncLoop (sweepExpired S now)
          ((sweepExpired S now).length - S.CacheSize + 1) [],
        ∀ y ∈ sweepExpired S now, y.2.notruncate = 0 →
          y.1 ∉ keysOf (truncLoop (sweepExpired S now)
            ((sweepExpired S now).length - S.CacheSize + 1) []) →
          entLE x y)) := by
  have hguard := c4_aux_guard S hcs hge
  refine ⟨?_, ?_, ?_⟩
  · intro p
    unfold sweepExpired
    cases hET : S.IsExpireTime
    · simp
    · simp only [if_true]
      rw [List.mem_filter]
      cases hex : isExpired now S.ExpireTime p.2.cache_date <;>
        by_cases hnt : p.2.notruncate = 0 <;> simp [hex, hnt]
  · intro hlt
    unfold TruncateCache
    rw [hguard]
    simp only [Bool.false_eq_true, if_false]
    rw [if_pos hlt]
  · intro hge1
    unfold TruncateCache
    rw [hguard]
    simp only [Bool.false_eq_true, if_false]
    rw [if_neg (Nat.not_lt.mpr hge1)]
    refine ⟨rfl, ?_, ?_, ?_⟩
    · intro q hq
      constructor
      · rcases truncLoop_subset _ _ _ _ hq with h | h
        · exact absurd h (List.not_mem_nil q)
        · exact h
      · exact truncLoop_nonpinned _ _ _ (fun x hx => absurd hx (List.not_mem_nil x)) q hq
    · have := truncLoop_length (sweepExpired S now)
        ((sweepExpired S now).length - S.CacheSize + 1) 0 [] (by simp)
      simpa using this
    · intro x hx y hy hynp hynk
      exact truncLoop_minimal (sweepExpired S now) _ [] []
        (by simp) (by simp) (by simp) (by simp) x hx y (Or.inr (Or.inr ⟨hy, hynp⟩)) hynk

/-- C4 counterexample: with two pinned entries and one non-pinned entry at
CacheSize 1, the cache exceeds capacity by 2, yet TruncateCache evicts only
the single non-pinned entry: the evicted set is not excess-sized. -/
theorem c4_eviction_counterexample :
    1 ≤ c4State.CacheSize ∧
    c4State.CacheSize ≤ c4State.stat_cache.length ∧
    c4State.stat_cache.length - c4State.CacheSize = 2 ∧
    (TruncateCache c4State true 10).stat_cache.length = 2 ∧
    c4State.stat_cache.length - (TruncateCache c4State true 10).stat_cache.length = 1 := by
  decide

/-- Witness for the amended C4 theorem at a concrete over-capacity state. -/
theorem c4_truncate_two_phase_witness :
    1 ≤ c4State.CacheSize ∧ c4State.CacheSize ≤ c4State.stat_cache.length ∧
    ((∀ p, p ∈ sweepExpired c4State 10 ↔ (p ∈ c4State.stat_cache ∧
      ¬(c4State.IsExpireTime = true ∧ p.2.notruncate = 0 ∧
        isExpired 10 c4State.ExpireTime p.2.cache_date = true))) ∧
    ((sweepExpired c4State 10).length < c4State.CacheSize →
      (TruncateCache c4State true 10).stat_cache = sweepExpired c4State 10) ∧
    (c4State.CacheSize ≤ (sweepExpired c4State 10).length →
      (TruncateCache c4State true 10).stat_cache =
        (sweepExpired c4State 10).filter (fun p =>
          !((truncLoop (sweepExpired c4State 10)
              ((sweepExpired c4State 10).length - c4State.CacheSize + 1) []).any
            (fun q => q.1 == p.1))) ∧
      (∀ q ∈ truncLoop (sweepExpired c4State 10)
          ((sweepExpired c4State 10).length - c4State.CacheSize + 1) [],
        q ∈ sweepExpired c4State 10 ∧ q.2.notruncate = 0) ∧
      (truncLoop (sweepExpired c4State 10)
          ((sweepExpired c4State 10).length - c4State.CacheSize + 1) []).length =
        min ((sweepExpired c4State 10).length - c4State.CacheSize + 1 -
            pinCount (sweepExpired c4State 10))
          (npCount (sweepExpired c4State 10)) ∧
      (∀ x ∈ truncLoop (sweepExpired c4State 10)
          ((sweepExpired c4State 10).length - c4State.CacheSize + 1) [],
        ∀ y ∈ sweepExpired c4State 10, y.2.notruncate = 0 →
          y.1 ∉ keysOf (truncLoop (sweepExpired c4State 10)
            ((sweepExpired c4State 10).length - c4State.CacheSize + 1) []) →
          entLE x y))) :=
  ⟨by decide, by decide, c4_truncate_two_phase c4State 10 (by decide) (by decide)⟩

theorem npCount_singleton (k : String) (e : stat_cache_entry) (he : e.notruncate = 0) :
    npCount [(k, e)] = 1 := by
  simp [npCount, he]

theorem AddStat_unpinned_stat (S : StatCache) (key : String) (meta : headers_t)
    (forcedir : Bool) (now : Int) (hcs : 1 ≤ S.CacheSize)
    (hnew : mfind S.stat_cache key = none) :
    (AddStat S key meta forcedir false now).stat_cache =
      massign (TruncateCache S true now).stat_cache key
        { st_mode := computedMode meta forcedir, hit_count := 0, cache_date := now,
          isforce := forcedir, noobjcache := false, notruncate := 0,
          meta := meta.filter (fun p => curatedKey p.1) } ∧
    (AddStat S key meta forcedir false now).CacheSize = S.CacheSize := by
  unfold AddStat
  rw [if_neg (fun h => absurd h.2 (by omega))]
  dsimp only
  rw [hnew]
  simp only [Option.isSome_none, Bool.false_eq_true, if_false]
  constructor
  · split <;> rfl
  · split <;> exact (TruncateCache_frame S true now).2.2.2.2.2.1

theorem AddStat_fresh_step (S : StatCache) (key : String) (meta : headers_t)
    (forcedir : Bool) (now : Int)
    (hcs : 1 ≤ S.CacheSize) (hnd : (keysOf S.stat_cache).Nodup)
    (hnew : mfind S.stat_cache key = none) :
    (AddStat S key meta forcedir false now).CacheSize = S.CacheSize ∧
    (keysOf (AddStat S key meta forcedir false now).stat_cache).Nodup ∧
    npCount (AddStat S key meta forcedir false now).stat_cache ≤ S.CacheSize ∧
    (∀ k2 ent, k2 ≠ key → mfind S.stat_cache k2 = some ent → 0 < ent.notruncate →
      mfind (AddStat S key meta forcedir false now).stat_cache k2 = some ent) ∧
    (∀ k2, k2 ≠ key → mfind S.stat_cache k2 = none →
      mfind (AddStat S key meta forcedir false now).stat_cache k2 = none) := by
  obtain ⟨hstat, hCS⟩ := AddStat_unpinned_stat S key meta forcedir now hcs hnew
  have hTnone : mfind (TruncateCache S true now).stat_cache key = none :=
    mfind_TruncateCache_none S true now key hnew
  have hTnd : (keysOf (TruncateCache S true now).stat_cache).Nodup :=
    TruncateCache_keys_nodup S true now hnd
  have happ : (AddStat S key meta forcedir false now).stat_cache =
      (TruncateCache S true now).stat_cache ++
        [(key, { st_mode := computedMode meta forcedir, hit_count := 0, cache_date := now,
                 isforce := forcedir, noobjcache := false, notruncate := 0,
                 meta := meta.filter (fun p => curatedKey p.1) })] := by
    rw [hstat]
    simp [massign, hTnone]
  refine ⟨hCS, ?_, ?_, ?_, ?_⟩
  · rw [happ, keysOf_append]
    refine List.Nodup.append hTnd (by simp [keysOf]) ?_
    intro a ha hb
    simp [keysOf] at hb
    subst hb
    exact (mfind_none_iff_not_mem_keys _ _).mp hTnone ha
  · have hlt := TruncateCache_np_lt S now hcs hnd
    rw [happ, npCount_append, npCount_singleton]
    · omega
    · rfl
  · intro k2 ent2 hne hf hp
    rw [hstat, mfind_massign_ne _ _ _ _ hne]
    exact TruncateCache_pinned S true now k2 ent2 hnd hf hp
  · intro k2 hne hn
    rw [hstat, mfind_massign_ne _ _ _ _ hne]
    exact mfind_TruncateCache_none S true now k2 hn

theorem addStatSeq_aux (ops : List (String × headers_t × Bool × Int)) :
    ∀ S : StatCache, 1 ≤ S.CacheSize →
    (ops.map (fun op => op.1)).Nodup →
    (∀ op ∈ ops, mfind S.stat_cache op.1 = none) →
    (keysOf S.stat_cache).Nodup →
    (addStatSeq S ops).CacheSize = S.CacheSize ∧
    (keysOf (addStatSeq S ops).stat_cache).Nodup ∧
    (ops ≠ [] → npCount (addStatSeq S ops).stat_cache ≤ S.CacheSize) ∧
    (∀ k2 ent, (∀ op ∈ ops, op.1 ≠ k2) → mfind S.stat_cache k2 = some ent →
      0 < ent.notruncate → mfind (addStatSeq S ops).stat_cache k2 = some ent) := by
  induction ops with
  | nil =>
    intro S _ _ _ hnd
    exact ⟨rfl, hnd, fun h => absurd rfl h, fun k2 ent _ hf _ => hf⟩
  | cons op rest ih =>
    intro S hcs hdis hfresh hnd
    obtain ⟨hCS, hnd2, hnp2, hpin2, hnone2⟩ :=
      AddStat_fresh_step S op.1 op.2.1 op.2.2.1 op.2.2.2 hcs hnd
        (hfresh op (List.mem_cons_self op rest))
    have hdis2 : (rest.map (fun o => o.1)).Nodup := (List.nodup_cons.mp hdis).2
    have hopnot : op.1 ∉ rest.map (fun o => o.1) := (List.nodup_cons.mp hdis).1
    have hfresh2 : ∀ o ∈ rest,
        mfind (AddStat S op.1 op.2.1 op.2.2.1 false op.2.2.2).stat_cache o.1 = none := by
      intro o ho
      refine hnone2 o.1 ?_ (hfresh o (List.mem_cons_of_mem op ho))
      intro he
      exact hopnot (he ▸ List.mem_map_of_mem (fun z => z.1) ho)
    have hrec := ih (AddStat S op.1 op.2.1 op.2.2.1 false op.2.2.2)
      (by rw [hCS]; exact hcs) hdis2 hfresh2 hnd2
    have hcons : addStatSeq S (op :: rest) =
        addStatSeq (AddStat S op.1 op.2.1 op.2.2.1 false op.2.2.2) rest := rfl
    refine ⟨?_, ?_, ?_, ?_⟩
    · rw [hcons, hrec.1, hCS]
    · rw [hcons]
      exact hrec.2.1
    · intro _
      rw [hcons]
      cases rest with
      | nil => exact hnp2
      | cons r rs =>
        have hb := hrec.2.2.1 (by simp)
        rw [hCS] at hb
        exact hb
    · intro k2 ent hne hf hpin
      rw [hcons]
      refine hrec.2.2.2 k2 ent (fun o ho => hne o (List.mem_cons_of_mem op ho)) ?_ hpin
      exact hpin2 k2 ent (Ne.symm (hne op (List.mem_cons_self op rest))) hf hpin

/-- C1: with capacity CacheSize = N at least 1, after any sequence of N+k
unpinned AddStat inserts of distinct keys not already cached (on a cache with
duplicate-free keys), at most N non-pinned entries remain in the stat cache,
and every pinned entry present beforehand survives unchanged. -/
theorem c1_capacity_pinned (S : StatCache) (ops : List (String × headers_t × Bool × Int))
    (k : Nat) (hcs : 1 ≤ S.CacheSize) (hlen : ops.length = S.CacheSize + k)
    (hdis : (ops.map (fun op => op.1)).Nodup)
    (hfresh : ∀ op ∈ ops, mfind S.stat_cache op.1 = none)
    (hnd : (keysOf S.stat_cache).Nodup) :
    npCount (addStatSeq S ops).stat_cache ≤ S.CacheSize ∧
    (∀ k2 ent, mfind S.stat_cache k2 = some ent → 0 < ent.notruncate →
      mfind (addStatSeq S ops).stat_cache k2 = some ent) := by
  obtain ⟨-, -, hnp, hpin⟩ := addStatSeq_aux ops S hcs hdis hfresh hnd
  constructor
  · apply hnp
    intro h
    rw [h] at hlen
    simp at hlen
    omega
  · intro k2 ent hf hpin0
    refine hpin k2 ent ?_ hf hpin0
    intro op hop he
    have hc := hfresh op hop
    rw [he, hf] at hc
    simp at hc

/-- Witness for C1: four fresh unpinned inserts into a capacity-3 cache
holding one pinned entry. -/
theorem c1_capacity_pinned_witness :
    npCount (addStatSeq c1State c1Ops).stat_cache ≤ c1State.CacheSize ∧
    mfind (addStatSeq c1State c1Ops).stat_cache "/pin" = some (wEntry 0 0 1 false []) := by
  have h := c1_capacity_pinned c1State c1Ops 1 (by decide) (by decide) (by decide)
    (by decide) (by decide)
  exact ⟨h.1, h.2 "/pin" (wEntry 0 0 1 false []) (by decide) (by decide)⟩

end S3fs
